import Mathlib

/-!
Verification development for `browser_patches/repack-juggler.mjs`, a one-shot
pipeline that downloads a prebuilt Firefox, locates the `omni.ja` resource
archive containing the baked-in Juggler, and replaces the `chrome/juggler`
subtree of that archive with locally authored files.

The JavaScript source is shallowly embedded: filesystem state is passed
explicitly, paths are lists of segments, zip archives are entry lists, the
network is a total function from URL to response, and JavaScript numeric
quirks (`parseInt` returning `NaN`, falsy empty strings) are modelled with
`Option` and explicit truthiness tests.  JS string methods are embedded as
structurally recursive functions on the character list of a `String`, so
every definition evaluates on concrete inputs.
-/

namespace RepackJuggler

/-! ### JavaScript string primitives -/

/-- Split a character list at every character satisfying `p` (each
separator occurrence ends a group, JS `s.split(sep)` semantics). -/
def splitPred (p : Char → Bool) : List Char → List (List Char)
  | [] => [[]]
  | c :: rest =>
    match splitPred p rest with
    | [] => [[c]]
    | g :: gs => if p c then [] :: g :: gs else (c :: g) :: gs

/-- JS `s.split(sep)` for a one-character separator. -/
def jsSplitChar (sep : Char) (s : String) : List String :=
  (splitPred (fun c => c = sep) s.data).map (fun g => String.mk g)

/-- JS `s.trim()`. -/
def jsTrim (s : String) : String :=
  String.mk (((s.data.dropWhile Char.isWhitespace).reverse.dropWhile
    Char.isWhitespace).reverse)

/-- JS `s.startsWith(pre)`. -/
def jsStartsWith (s pre : String) : Bool :=
  pre.data.isPrefixOf s.data

/-- JS `s.endsWith(suf)`. -/
def jsEndsWith (s suf : String) : Bool :=
  suf.data.isSuffixOf s.data

/-- JS `s.toLowerCase()`. -/
def jsToLower (s : String) : String :=
  String.mk (s.data.map Char.toLower)

/-- Replace the first occurrence of `pat` (as done by `util.format` for a
`%s` placeholder). -/
def replaceFirst (pat rep : List Char) : List Char → List Char
  | [] => []
  | c :: rest =>
    if pat.isPrefixOf (c :: rest) then rep ++ (c :: rest).drop pat.length
    else c :: replaceFirst pat rep rest

/-- JS `line.split(/\s+/)` for a string without leading or trailing
whitespace (the lines it is applied to are trimmed): whitespace runs
separate tokens. -/
def jsSplitWs (s : String) : List String :=
  ((splitPred Char.isWhitespace s.data).map (fun g => String.mk g)).filter
    (fun t => t ≠ "")

/-! ### JavaScript numeric primitives -/

/-- Numeric value of a decimal digit string prefix; `none` when there is no
leading digit (JavaScript `NaN`). -/
def digitsVal (cs : List Char) : Option Nat :=
  let ds := cs.takeWhile (·.isDigit)
  if ds.isEmpty then none
  else some (ds.foldl (fun acc c => acc * 10 + (c.toNat - '0'.toNat)) 0)

/-- JavaScript `parseInt(s, 10)`: skip leading whitespace, optional sign,
then the longest digit prefix; no digits yields `NaN` (`none`). -/
def jsParseInt (s : String) : Option Int :=
  match s.data.dropWhile (·.isWhitespace) with
  | '-' :: rest => (digitsVal rest).map (fun n => -(n : Int))
  | '+' :: rest => (digitsVal rest).map (fun n => (n : Int))
  | cs => (digitsVal cs).map (fun n => (n : Int))

/-- JavaScript `a <= b` where `a` may be `NaN`: comparisons with `NaN` are false. -/
def jsLE (a : Option Int) (b : Int) : Bool :=
  match a with
  | some x => decide (x ≤ b)
  | none => false

/-- JavaScript `a >= b` where `a` may be `NaN`. -/
def jsGE (a : Option Int) (b : Int) : Bool :=
  match a with
  | some x => decide (b ≤ x)
  | none => false

/-- JavaScript `a > b` where `a` may be `NaN`. -/
def jsGT (a : Option Int) (b : Int) : Bool :=
  match a with
  | some x => decide (b < x)
  | none => false

/-- Template-literal display of `parseInt` applied to an optional array
element: a missing element is `undefined`, a failed parse is `NaN`. -/
def jsNumDisplay : Option String → String
  | none => "undefined"
  | some s =>
    match jsParseInt s with
    | none => "NaN"
    | some n => toString n

/-! ### Host model

`getHostPlatform` and `getUbuntuVersionSync` probe the machine through
`os.platform()`, `sw_vers`, `sysctl` and two release files.  Those probe
results form the `Host` state. -/

structure Host where
  /-- `os.platform()` -/
  platform : String
  /-- stdout of `sw_vers -productVersion` (darwin only) -/
  swVersOutput : String
  /-- stdout of `/usr/sbin/sysctl -in hw.optional.arm64` (darwin only) -/
  sysctlArm64Output : String
  /-- content of `/etc/upstream-release/lsb-release`, `none` when absent -/
  upstreamLsbRelease : Option String
  /-- content of `/etc/os-release`, `none` when a read raises -/
  etcOsRelease : Option String

/-- JS `Map.set`: replace the value at an existing key, else append. -/
def mapSet (m : List (String × String)) (k v : String) : List (String × String) :=
  if m.any (fun e => e.1 == k) then
    m.map (fun e => if e.1 == k then (k, v) else e)
  else m ++ [(k, v)]

/-- JS `Map.get`, `none` for a missing key. -/
def mapGet (m : List (String × String)) (k : String) : Option String :=
  (m.find? (fun e => e.1 == k)).map (·.2)

/-- `value.substring(1, value.length - 1)` guarded by the quote test of
`getUbuntuVersionInternal`; JS `substring` swaps its arguments on a
one-character string, returning it unchanged. -/
def stripQuotes (v : String) : String :=
  if jsStartsWith v "\"" && jsEndsWith v "\"" then
    (if v.length ≤ 1 then v else (v.drop 1).dropRight 1)
  else v

/-- Lines 275-293 of the source: parse `key=value` release metadata and
extract an Ubuntu version string, `""` when the file is not Ubuntu-like. -/
def getUbuntuVersionInternal (osReleaseText : String) : String :=
  let fields := (jsSplitChar '\n' osReleaseText).foldl (fun fields line =>
    match jsSplitChar '=' line with
    | [] => fields
    | nm :: rest =>
      let value := stripQuotes (jsTrim (String.intercalate "=" rest))
      if nm = "" then fields else mapSet fields (jsToLower nm) value) []
  let distribId := (mapGet fields "distrib_id").getD ""
  if distribId ≠ "" && jsToLower distribId == "ubuntu" then
    (mapGet fields "distrib_release").getD ""
  else
    let nameField := (mapGet fields "name").getD ""
    if nameField = "" || jsToLower nameField ≠ "ubuntu" then ""
    else (mapGet fields "version_id").getD ""

/-- Lines 258-273: read the release metadata (preferring the upstream
lsb-release file), returning `""` off Linux, on a read failure, or on an
empty file. -/
def getUbuntuVersionSync (h : Host) : String :=
  if h.platform ≠ "linux" then ""
  else
    match h.upstreamLsbRelease with
    | some text => if text = "" then "" else getUbuntuVersionInternal text
    | none =>
      match h.etcOsRelease with
      | some text => if text = "" then "" else getUbuntuVersionInternal text
      | none => ""

/-- Lines 295-330: map the host to a platform tag.  On darwin the product
version is split on `.` and each component fed to `parseInt`; the arm64
probe runs only when `major >= 11`; majors above 11 are clamped to `11`;
major 10 keeps its minor.  On linux the Ubuntu version buckets into two
tags with `parseInt(v) <= 19`.  `win32` maps to `win64`; anything else is
returned raw. -/
def getHostPlatform (h : Host) : String :=
  if h.platform = "darwin" then
    let parts := jsSplitChar '.' (jsTrim h.swVersOutput)
    let major := parts[0]?.bind jsParseInt
    let arm64 := if jsGE major 11 then jsTrim h.sysctlArm64Output == "1" else false
    let macVersion :=
      if major = some 10 then
        jsNumDisplay parts[0]? ++ "." ++ jsNumDisplay parts[1]?
      else if jsGT major 11 then "11"
      else jsNumDisplay parts[0]?
    let archSuffix := if arm64 then "-arm64" else ""
    "mac" ++ macVersion ++ archSuffix
  else if h.platform = "linux" then
    if jsLE (jsParseInt (getUbuntuVersionSync h)) 19 then "ubuntu18.04"
    else "ubuntu20.04"
  else if h.platform = "win32" then "win64"
  else h.platform

/-! ### Manifest (`jar.mn`) parsing

Lines 179-187 of the source: split the manifest on newlines, trim, keep
lines that start with `content/` and end with `)`, split each kept line on
whitespace runs, use the first token as destination and the second token
stripped of its first and last character as source. -/

/-- JS `tokens[1].slice(1, -1)`: drop the first and the last character. -/
def jsSliceInner (s : String) : String :=
  (s.drop 1).dropRight 1

/-- The kept manifest lines (line 180). -/
def jarLines (jarmn : String) : List String :=
  ((jsSplitChar '\n' jarmn).map (fun line => jsTrim line)).filter
    (fun line => jsStartsWith line "content/" && jsEndsWith line ")")

/-- The (destination, source) pair of one kept line; `none` when the line
has fewer than two tokens (in JS, `tokens[1].slice` would then throw). -/
def linePair? (line : String) : Option (String × String) :=
  match jsSplitWs line with
  | t0 :: t1 :: _ => some (t0, jsSliceInner t1)
  | _ => none

/-- The (destination, source) pairs of the kept lines; a kept line with
fewer than two tokens aborts the run with a TypeError. -/
def pairsOfLines : List String → Except String (List (String × String))
  | [] => Except.ok []
  | line :: rest =>
    match linePair? line with
    | none => Except.error "TypeError: tokens[1] is undefined"
    | some pr =>
      match pairsOfLines rest with
      | Except.error e => Except.error e
      | Except.ok prs => Except.ok (pr :: prs)

/-- All (destination, source) pairs of a manifest. -/
def manifestPairs (jarmn : String) : Except String (List (String × String)) :=
  pairsOfLines (jarLines jarmn)

/-! ### HTTP download model

Lines 209-256.  The network is a total function from URL to response; a
response carries a status code, a `location` header (`""` when absent,
matching JS truthiness of a missing header) and a body. -/

structure HttpResponse where
  statusCode : Nat
  location : String
  body : String
  deriving DecidableEq

/-- Lines 213-218: follow `3xx`-with-location responses.  The source
recurses with no hop cap; the embedding spends one unit of fuel per hop and
returns `none` only when the fuel runs out, so any finite redirect chain is
followed in full by choosing enough fuel. -/
def httpRequest (net : String → HttpResponse) : Nat → String → Option HttpResponse
  | 0, _ => none
  | fuel + 1, url =>
    let res := net url
    if 300 ≤ res.statusCode ∧ res.statusCode < 400 ∧ res.location ≠ "" then
      httpRequest net fuel res.location
    else some res

/-- Outcome of `downloadFile`: on failure the destination file is untouched
and the error records whether the response body was drained
(`response.resume()`, line 237). -/
structure DownloadError where
  message : String
  drainedBody : Bool

/-- Lines 226-256: fail on a non-200 terminal response with a message
carrying the status code and the URL, else write exactly the final body to
the destination.  The destination file content is the returned value;
`Except.error` means no file was created or written. -/
def downloadFile (net : String → HttpResponse) (fuel : Nat) (url : String) :
    Except DownloadError String :=
  match httpRequest net fuel url with
  | none => Except.error ⟨"model: out of redirect fuel", false⟩
  | some res =>
    if res.statusCode ≠ 200 then
      Except.error
        ⟨"Download failed: server returned code " ++ toString res.statusCode ++
          ". URL: " ++ url, true⟩
    else Except.ok res.body

/-- A redirect chain under `net`: every URL in the list responds with a
redirect status and a `location` header naming the next URL, the last URL
of the list redirecting to `final`. -/
def redirectChain (net : String → HttpResponse) : List String → String → Prop
  | [], _ => True
  | u :: rest, final =>
    300 ≤ (net u).statusCode ∧ (net u).statusCode < 400 ∧
      (net u).location = (rest.headD final) ∧ (net u).location ≠ "" ∧
      redirectChain net rest final

/-! ### BuildCache model (`ensureFirefoxBuild`, lines 94-127)

State: the parsed content of `build-info.json` (`none` when the file is
missing or `JSON.parse` throws — the `.catch` on line 99 then supplies a
descriptor with three empty fields).  Environment: the first line of the
`BUILD_NUMBER` file and the host platform, used to resolve absent CLI
arguments.  Network and extraction work is recorded as effects. -/

structure BuildInfo where
  buildNumber : String
  buildPlatform : String
  browserName : String
  deriving DecidableEq

structure CacheEnv where
  /-- content of `{browserName}/BUILD_NUMBER` -/
  buildNumberFile : String
  /-- result of `getHostPlatform()` -/
  hostPlatform : String

structure EnsureEffects where
  /-- line 103: `rm(BUILD_DIRECTORY, { recursive: true })` ran -/
  wipedStage : Bool
  /-- line 113: the URL passed to `downloadFile`, if any -/
  downloadedUrl : Option String
  /-- line 122: the `(overwrite, keepOriginalPermission)` flags passed to
  `extractAllTo`, if extraction ran -/
  extractFlags : Option (Bool × Bool)
  deriving DecidableEq

/-- Lines 74-82: URL templates of the `firefox` variant. -/
def firefoxURLs (p : String) : Option String :=
  if p = "ubuntu18.04" then some "https://playwright.azureedge.net/builds/firefox/%s/firefox-ubuntu-18.04.zip"
  else if p = "ubuntu20.04" then some "https://playwright.azureedge.net/builds/firefox/%s/firefox-ubuntu-20.04.zip"
  else if p = "mac10.14" then some "https://playwright.azureedge.net/builds/firefox/%s/firefox-mac-11.zip"
  else if p = "mac10.15" then some "https://playwright.azureedge.net/builds/firefox/%s/firefox-mac-11.zip"
  else if p = "mac11" then some "https://playwright.azureedge.net/builds/firefox/%s/firefox-mac-11.zip"
  else if p = "mac11-arm64" then some "https://playwright.azureedge.net/builds/firefox/%s/firefox-mac-11-arm64.zip"
  else if p = "win64" then some "https://playwright.azureedge.net/builds/firefox/%s/firefox-win64.zip"
  else none

/-- Lines 83-91: URL templates of the `firefox-beta` variant. -/
def firefoxBetaURLs (p : String) : Option String :=
  if p = "ubuntu18.04" then some "https://playwright.azureedge.net/builds/firefox-beta/%s/firefox-beta-ubuntu-18.04.zip"
  else if p = "ubuntu20.04" then some "https://playwright.azureedge.net/builds/firefox-beta/%s/firefox-beta-ubuntu-20.04.zip"
  else if p = "mac10.14" then some "https://playwright.azureedge.net/builds/firefox-beta/%s/firefox-beta-mac-11.zip"
  else if p = "mac10.15" then some "https://playwright.azureedge.net/builds/firefox-beta/%s/firefox-beta-mac-11.zip"
  else if p = "mac11" then some "https://playwright.azureedge.net/builds/firefox-beta/%s/firefox-beta-mac-11.zip"
  else if p = "mac11-arm64" then some "https://playwright.azureedge.net/builds/firefox-beta/%s/firefox-beta-mac-11-arm64.zip"
  else if p = "win64" then some "https://playwright.azureedge.net/builds/firefox-beta/%s/firefox-beta-win64.zip"
  else none

/-- Lines 73-92: the outer lookup `DOWNLOAD_URLS[browserName]`. -/
def downloadURLs (browserName : String) : Option (String → Option String) :=
  if browserName = "firefox" then some firefoxURLs
  else if browserName = "firefox-beta" then some firefoxBetaURLs
  else none

/-- `util.format(template, buildNumber)` on a single-`%s` template. -/
def formatURL (template buildNumber : String) : String :=
  String.mk (replaceFirst "%s".data buildNumber.data template.data)

/-- The platform tags the descriptor's platform field ranges over (the
common key set of the URL and executable-path tables). -/
def supportedPlatform (p : String) : Prop :=
  p = "ubuntu18.04" ∨ p = "ubuntu20.04" ∨ p = "mac10.14" ∨ p = "mac10.15" ∨
    p = "mac11" ∨ p = "mac11-arm64" ∨ p = "win64"

instance (p : String) : Decidable (supportedPlatform p) := by
  unfold supportedPlatform; infer_instance

/-- Lines 94-127: resolve absent arguments, compare the persisted
descriptor field-by-field with the request, and on any mismatch wipe the
stage directory, download, extract (overwrite disabled, permissions kept)
and persist the new descriptor.  Returns the new persisted-descriptor
state, the returned descriptor, and the effects performed. -/
def ensureFirefoxBuild (browserName : String)
    (argBuildNumber argBuildPlatform : Option String) (env : CacheEnv)
    (st : Option BuildInfo) :
    Except String (Option BuildInfo × BuildInfo × EnsureEffects) :=
  let buildNumber :=
    if (argBuildNumber.getD "") = "" then (jsSplitChar '\n' env.buildNumberFile).headD ""
    else argBuildNumber.getD ""
  let buildPlatform :=
    if (argBuildPlatform.getD "") = "" then env.hostPlatform
    else argBuildPlatform.getD ""
  let currentBuildInfo := st.getD ⟨"", "", ""⟩
  if currentBuildInfo.buildPlatform = buildPlatform ∧
      currentBuildInfo.buildNumber = buildNumber ∧
      currentBuildInfo.browserName = browserName then
    Except.ok (st, currentBuildInfo, ⟨false, none, none⟩)
  else
    match downloadURLs browserName with
    | none => Except.error "TypeError: DOWNLOAD_URLS[browserName] is undefined"
    | some table =>
      match table buildPlatform with
      | none => Except.error ("ERROR: repack-juggler does not support " ++ buildPlatform)
      | some urlTemplate =>
        let url := formatURL urlTemplate buildNumber
        let buildInfo : BuildInfo := ⟨buildNumber, buildPlatform, browserName⟩
        Except.ok (some buildInfo, buildInfo, ⟨true, some url, some (false, true)⟩)

/-! ### Filesystem and zip model

Paths are segment lists (`path.join` concatenates segments); the
filesystem is an association list from path to file data; directories are
implicit (a directory exists when some file lies strictly under it, which
is how extraction materialises them).  A zip archive on disk holds its
entry list; entries are files keyed by their in-archive segment path. -/

abbrev FPath := List String

inductive FileData where
  | bytes (content : String)
  | zip (entries : List (List String × String))
  deriving DecidableEq

structure FSys where
  files : List (FPath × FileData)
  deriving DecidableEq

inductive RepackFailure where
  | exit (code : Nat)
  | err (msg : String)
  deriving DecidableEq

/-- Line 53: `/tmp/repackaged-firefox` (the non-win32 branch). -/
def BUILD_DIRECTORY : FPath := ["tmp", "repackaged-firefox"]

/-- Line 57. -/
def OMNI_BACKUP_PATH : FPath := BUILD_DIRECTORY ++ ["omni.ja.backup"]

/-- Line 59. -/
def OMNI_EXTRACT_DIR : FPath := BUILD_DIRECTORY ++ ["omni"]

/-- The marker subtree `chrome/juggler` inside `omni.ja`. -/
def MARKER : FPath := ["chrome", "juggler"]

/-- Line 61. -/
def OMNI_JUGGLER_DIR : FPath := OMNI_EXTRACT_DIR ++ MARKER

def lookupFile (fs : FSys) (p : FPath) : Option FileData :=
  (fs.files.find? (fun e => e.1 == p)).map (fun e => e.2)

/-- Write (or overwrite) one file. -/
def setFile (fs : FSys) (p : FPath) (d : FileData) : FSys :=
  ⟨fs.files.filter (fun e => e.1 != p) ++ [(p, d)]⟩

/-- `fs.promises.rm(path, { recursive: true })`: drop every file at or
under the path. -/
def removeTree (fs : FSys) (p : FPath) : FSys :=
  ⟨fs.files.filter (fun e => !(p.isPrefixOf e.1))⟩

/-- `fs.stat` succeeds: a file or an (implicit) directory is at the path. -/
def pathExists (fs : FSys) (p : FPath) : Bool :=
  fs.files.any (fun e => p.isPrefixOf e.1)

/-- Lines 129-138 (`listFiles`): every file at or under a directory, in
enumeration order (the model uses the association-list order as the
stand-in for the unordered traversal of the source). -/
def listFilesUnder (fs : FSys) (p : FPath) : List FPath :=
  (fs.files.map (fun e => e.1)).filter (fun q => p.isPrefixOf q)

/-- `fs.promises.unlink`: fails when the file is absent. -/
def unlinkFile (fs : FSys) (p : FPath) : Except RepackFailure FSys :=
  if (lookupFile fs p).isSome then
    Except.ok ⟨fs.files.filter (fun e => e.1 != p)⟩
  else Except.error (.err "ENOENT: unlink")

/-- `fs.promises.copyFile`: byte-exact copy, fails on a missing source. -/
def copyFile (fs : FSys) (src dst : FPath) : Except RepackFailure FSys :=
  match lookupFile fs src with
  | some d => Except.ok (setFile fs dst d)
  | none => Except.error (.err "ENOENT: copyFile")

/-- `new AdmZip(path)`: the file must exist and hold a zip archive. -/
def admOpen (fs : FSys) (p : FPath) : Except RepackFailure (List (List String × String)) :=
  match lookupFile fs p with
  | some (.zip entries) => Except.ok entries
  | some (.bytes _) => Except.error (.err "Invalid or unsupported zip format")
  | none => Except.error (.err "Invalid filename")

/-- `zip.extractAllTo(destDir, false, true)`: write each entry under the
destination unless its target already exists (overwrite disabled). -/
def extractAllTo (fs : FSys) (entries : List (List String × String)) (destDir : FPath) : FSys :=
  entries.foldl (fun acc e =>
    if pathExists acc (destDir ++ e.1) then acc
    else setFile acc (destDir ++ e.1) (.bytes e.2)) fs

/-- Raw bytes of a file, as read by `zip.addLocalFolder`; a zip file read
as bytes is its serialization. -/
def rawContent : FileData → String
  | .bytes s => s
  | .zip es => toString es

/-- `zip.addLocalFolder(dir)`: one entry per file under the directory,
keyed by its path relative to the directory, in enumeration order. -/
def addLocalFolder (fs : FSys) (dir : FPath) : List (List String × String) :=
  fs.files.filterMap (fun e =>
    if dir.isPrefixOf e.1 then some (e.1.drop dir.length, rawContent e.2) else none)

/-! ### ResourcePatcher (`repackageJuggler`, lines 140-206) -/

/-- Line 151: `zipEntry.toString().includes('chrome/juggler')`, i.e. the
entry name contains the marker subtree. -/
def markerEntry (e : List String × String) : Bool :=
  decide (MARKER <:+: e.1)

/-- Line 144: files under the build directory whose name ends with
`omni.ja` (on segment paths: the last segment carries the file name). -/
def candidates (fs : FSys) : List FPath :=
  (listFilesUnder fs BUILD_DIRECTORY).filter
    (fun q => jsEndsWith (q.getLast?.getD "") "omni.ja")

/-- Lines 147-156: scan the candidates in order; opening a candidate can
throw, a candidate with a marker entry is returned, exhaustion yields
`none`. -/
def findOmniLoop (fs : FSys) : List FPath → Except RepackFailure (Option FPath)
  | [] => Except.ok none
  | p :: rest =>
    match admOpen fs p with
    | Except.error e => Except.error e
    | Except.ok entries =>
      if entries.any markerEntry then Except.ok (some p) else findOmniLoop fs rest

/-- Lines 162-164: create the backup only when none exists yet; the `Bool`
records whether this run created it. -/
def stageBackup (fs : FSys) (p : FPath) : Except RepackFailure (FSys × Bool) :=
  if pathExists fs OMNI_BACKUP_PATH then Except.ok (fs, false)
  else (copyFile fs p OMNI_BACKUP_PATH).map (fun fs2 => (fs2, true))

/-- Lines 181-187: for each manifest pair make the parent directories and
copy the source file (looked up in the juggler checkout, an input keyed by
the source token) to `OMNI_JUGGLER_DIR/tokens[0]`. -/
def copyJarEntries (jsrc : String → Option String) :
    List (String × String) → FSys → Except RepackFailure FSys
  | [], fs => Except.ok fs
  | pr :: rest, fs =>
    match jsrc pr.2 with
    | none => Except.error (.err "ENOENT: copyFile source missing")
    | some s =>
      copyJarEntries jsrc rest
        (setFile fs (OMNI_JUGGLER_DIR ++ jsSplitChar '/' pr.1) (.bytes s))

/-- Lines 166-187: clear and refill the scratch directory from the backup
archive, delete the marker subtree (`rm` without `force` fails when it is
absent), then copy in the manifest files. -/
def patchFromBackup (jarmn : String) (jsrc : String → Option String) (fs : FSys) :
    Except RepackFailure FSys :=
  let fs := removeTree fs OMNI_EXTRACT_DIR
  match admOpen fs OMNI_BACKUP_PATH with
  | Except.error e => Except.error e
  | Except.ok entries =>
    let fs := extractAllTo fs entries OMNI_EXTRACT_DIR
    if pathExists fs OMNI_JUGGLER_DIR then
      let fs := removeTree fs OMNI_JUGGLER_DIR
      match manifestPairs jarmn with
      | Except.error e => Except.error (.err e)
      | Except.ok pairs => copyJarEntries jsrc pairs fs
    else Except.error (.err "ENOENT: rm chrome/juggler")

/-- Lines 189-194: delete the target archive, then rebuild it from the
scratch directory at the same path. -/
def rebuildOmni (fs : FSys) (p : FPath) : Except RepackFailure FSys :=
  match unlinkFile fs p with
  | Except.error e => Except.error e
  | Except.ok fs2 => Except.ok (setFile fs2 p (.zip (addLocalFolder fs2 OMNI_EXTRACT_DIR)))

/-- Lines 140-206 (`repackageJuggler`), minus the external
preference-installation collaborator: select the target archive (exit 1
when none qualifies), back it up if needed, patch from the backup, rebuild.
Returns the filesystem, the selected archive path, and whether this run
created the backup. -/
def repackageJuggler (jarmn : String) (jsrc : String → Option String) (fs : FSys) :
    Except RepackFailure (FSys × FPath × Bool) :=
  match findOmniLoop fs (candidates fs) with
  | Except.error e => Except.error e
  | Except.ok none => Except.error (.exit 1)
  | Except.ok (some p) =>
    match stageBackup fs p with
    | Except.error e => Except.error e
    | Except.ok (fs, created) =>
      match patchFromBackup jarmn jsrc fs with
      | Except.error e => Except.error e
      | Except.ok fs => (rebuildOmni fs p).map (fun fs2 => (fs2, p, created))

/-- Exit status of the process running `repackageJuggler`: `process.exit(1)`
on a missing marker archive, and a non-zero exit on any unhandled
rejection (the script top-level awaits `main()`). -/
def repackExitCode (r : Except RepackFailure (FSys × FPath × Bool)) : Nat :=
  match r with
  | Except.ok _ => 0
  | Except.error (.exit c) => c
  | Except.error (.err _) => 1

/-- The marker subtree of an entry list: entries under `chrome/juggler`,
keyed relative to it. -/
def markerSubtree (entries : List (List String × String)) : List (List String × String) :=
  entries.filterMap (fun e =>
    if MARKER.isPrefixOf e.1 then some (e.1.drop MARKER.length, e.2) else none)

/-- The paths present in the filesystem. -/
def keysOf (fs : FSys) : List FPath :=
  fs.files.map (fun e => e.1)

/-- The manifest's mapped files, keyed relative to the marker subtree:
destination token split on `/`, content read from the juggler checkout. -/
def mappedFiles (jsrc : String → Option String) (pairs : List (String × String)) :
    List (List String × String) :=
  pairs.filterMap (fun pr => (jsrc pr.2).map (fun s => (jsSplitChar '/' pr.1, s)))

/-- A staged build `repackageJuggler` runs against: `p` is the unique
candidate archive carrying the marker; `P` is the entry list of the
effective backup (the backup file when present, else the target archive
that will be backed up); the manifest parses to `pairs` with available
sources; and no extracted entry or manifest destination masquerades as a
new `omni.ja` candidate. -/
structure WellStaged (jarmn : String) (jsrc : String → Option String) (fs : FSys)
    (p : FPath) (P : List (List String × String))
    (pairs : List (String × String)) : Prop where
  cand_mem : p ∈ candidates fs
  cand_qual : ∃ E0, lookupFile fs p = some (FileData.zip E0) ∧
    E0.any markerEntry = true
  others : ∀ q ∈ candidates fs, q ≠ p →
    ∃ Q, lookupFile fs q = some (FileData.zip Q) ∧ Q.any markerEntry = false
  offScratch : ¬ OMNI_EXTRACT_DIR <+: p
  backupSpec : lookupFile fs OMNI_BACKUP_PATH = some (FileData.zip P) ∨
    (pathExists fs OMNI_BACKUP_PATH = false ∧
      lookupFile fs p = some (FileData.zip P))
  markerInP : ∃ e ∈ P, MARKER <+: e.1
  entriesNoOmni : ∀ e ∈ P,
    jsEndsWith ((OMNI_EXTRACT_DIR ++ e.1).getLast?.getD "") "omni.ja" = false
  pairsOk : manifestPairs jarmn = Except.ok pairs
  pairsNe : pairs ≠ []
  srcOk : ∀ pr ∈ pairs, (jsrc pr.2).isSome = true
  destsNodup : (pairs.map (fun pr => jsSplitChar '/' pr.1)).Nodup
  destsNoOmni : ∀ pr ∈ pairs,
    jsEndsWith ((jsSplitChar '/' pr.1).getLast?.getD "") "omni.ja" = false

/-- The on-disk files the manifest copy loop writes (lines 181-187), in
order: `OMNI_JUGGLER_DIR/tokens[0]` with the source file bytes. -/
def copiesOf (jsrc : String → Option String) (pairs : List (String × String)) :
    List (FPath × FileData) :=
  pairs.filterMap (fun pr => (jsrc pr.2).map
    (fun s => (OMNI_JUGGLER_DIR ++ jsSplitChar '/' pr.1, FileData.bytes s)))

/-- The scratch state after lines 167-177: scratch cleared, backup entries
`P` extracted, marker subtree deleted. -/
def stageE (fsb : FSys) (P : List (List String × String)) : FSys :=
  removeTree (extractAllTo (removeTree fsb OMNI_EXTRACT_DIR) P OMNI_EXTRACT_DIR)
    OMNI_JUGGLER_DIR

/-- The state after the manifest copy loop (line 187). -/
def stageF (jsrc : String → Option String) (pairs : List (String × String))
    (fsb : FSys) (P : List (List String × String)) : FSys :=
  ⟨(stageE fsb P).files ++ copiesOf jsrc pairs⟩

/-- The state after `unlink(omniWithJugglerPath)` (line 189). -/
def stageG (jsrc : String → Option String) (pairs : List (String × String))
    (fsb : FSys) (P : List (List String × String)) (p : FPath) : FSys :=
  ⟨(stageF jsrc pairs fsb P).files.filter (fun e => e.1 != p)⟩

/-- The entries of the rebuilt archive (lines 191-193). -/
def rebuiltEntries (jsrc : String → Option String) (pairs : List (String × String))
    (fsb : FSys) (P : List (List String × String)) (p : FPath) :
    List (List String × String) :=
  addLocalFolder (stageG jsrc pairs fsb P p) OMNI_EXTRACT_DIR

/-- The state after the rebuilt archive is written back (line 193). -/
def stageFinal (jsrc : String → Option String) (pairs : List (String × String))
    (fsb : FSys) (P : List (List String × String)) (p : FPath) : FSys :=
  setFile (stageG jsrc pairs fsb P p) p
    (FileData.zip (rebuiltEntries jsrc pairs fsb P p))

/-! ## Theorems -/

/-- An element of the darwin version split that `parseInt` maps to a value
determines the element and its parse. -/
theorem bind_parse_some {o : Option String} {v : Int}
    (hb : o.bind jsParseInt = some v) :
    ∃ s, o = some s ∧ jsParseInt s = some v := by
  cases e : o with
  | none => rw [e] at hb; simp at hb
  | some s =>
    rw [e] at hb
    simp only [Option.some_bind] at hb
    exact ⟨s, rfl, hb⟩

/-- C5: on darwin, major version 11 with a positive arm64 probe yields the
arm64-suffixed tag, and any major above the newest known major (11) is
clamped to the `mac11` tag (with the probe still deciding the suffix). -/
theorem getHostPlatform_darwin_arm64_and_clamp (h : Host) (major : Int)
    (hplat : h.platform = "darwin")
    (hmaj : (jsSplitChar '.' (jsTrim h.swVersOutput))[0]?.bind jsParseInt = some major) :
    (major = 11 → jsTrim h.sysctlArm64Output = "1" →
      getHostPlatform h = "mac11-arm64") ∧
    (11 < major →
      getHostPlatform h =
        "mac11" ++ (if jsTrim h.sysctlArm64Output = "1" then "-arm64" else "")) := by
  obtain ⟨s0, hs0, hp0⟩ := bind_parse_some hmaj
  constructor
  · intro h11 harm
    subst h11
    unfold getHostPlatform
    rw [hplat, if_pos rfl]
    simp [hs0, hp0, jsGE, jsGT, jsNumDisplay, harm]
    decide
  · intro hgt
    have hne10 : major ≠ 10 := by omega
    have hge : (11 : Int) ≤ major := by omega
    unfold getHostPlatform
    rw [hplat, if_pos rfl]
    simp only [hs0, Option.some_bind, hp0, jsGE, jsGT, jsNumDisplay,
      decide_eq_true_eq, Option.some.injEq, hne10, if_false, hge, if_true,
      hgt, String.append_assoc]
    by_cases harm : jsTrim h.sysctlArm64Output = "1"
    · simp [harm]
    · simp [harm]

/-- Witness for C5 at a concrete darwin host. -/
theorem getHostPlatform_darwin_arm64_and_clamp_witness :
    getHostPlatform ⟨"darwin", "11.6.2\n", "1\n", none, none⟩ = "mac11-arm64" := by
  have h := getHostPlatform_darwin_arm64_and_clamp
    ⟨"darwin", "11.6.2\n", "1\n", none, none⟩ 11 rfl (by decide)
  exact h.1 rfl (by decide)

/-- C10: on darwin with product major version 10, the tag is
`mac10.<minor>` (no arm64 suffix possible), and the arm64 probe output is
never consulted: the result is invariant under changing it. -/
theorem getHostPlatform_darwin_mac10 (h : Host)
    (hplat : h.platform = "darwin")
    (hmaj : (jsSplitChar '.' (jsTrim h.swVersOutput))[0]?.bind jsParseInt = some 10) :
    getHostPlatform h =
      "mac10." ++ jsNumDisplay (jsSplitChar '.' (jsTrim h.swVersOutput))[1]? ∧
    (∀ s : String,
      getHostPlatform { h with sysctlArm64Output := s } = getHostPlatform h) := by
  obtain ⟨s0, hs0, hp0⟩ := bind_parse_some hmaj
  have key : ∀ s : String, getHostPlatform { h with sysctlArm64Output := s } =
      "mac10." ++ jsNumDisplay (jsSplitChar '.' (jsTrim h.swVersOutput))[1]? := by
    intro s
    unfold getHostPlatform
    rw [show (Host.platform { h with sysctlArm64Output := s }) = "darwin" from hplat,
      if_pos rfl]
    simp only [hs0, Option.some_bind, hp0, jsGE, jsGT, jsNumDisplay]
    norm_num
    rw [← String.append_assoc, ← String.append_assoc,
      show ("mac" ++ toString (10 : Int) ++ "." : String) = "mac10." from by decide]
  have hself : getHostPlatform h =
      "mac10." ++ jsNumDisplay (jsSplitChar '.' (jsTrim h.swVersOutput))[1]? := by
    have := key h.sysctlArm64Output
    simpa using this
  exact ⟨hself, fun s => (key s).trans hself.symm⟩

/-- Witness for C10 at a concrete darwin host (macOS 10.15). -/
theorem getHostPlatform_darwin_mac10_witness :
    getHostPlatform ⟨"darwin", "10.15.7", "1", none, none⟩ = "mac10.15" ∧
    getHostPlatform ⟨"darwin", "10.15.7", "0", none, none⟩ =
      getHostPlatform ⟨"darwin", "10.15.7", "1", none, none⟩ := by
  have h := getHostPlatform_darwin_mac10 ⟨"darwin", "10.15.7", "1", none, none⟩
    rfl (by decide)
  exact ⟨by rw [h.1]; decide, h.2 "0"⟩

/-- C6: on linux the Ubuntu version extracted from the release metadata is
bucketed with `parseInt(v) <= 19`: a parsed value at most 19 yields the
older tag, anything else (including an unparseable or empty version, or a
failure to read both release files) yields the newer tag. -/
theorem getHostPlatform_linux_buckets (h : Host) (hplat : h.platform = "linux") :
    (∀ n : Int, jsParseInt (getUbuntuVersionSync h) = some n →
      getHostPlatform h = if n ≤ 19 then "ubuntu18.04" else "ubuntu20.04") ∧
    (jsParseInt (getUbuntuVersionSync h) = none →
      getHostPlatform h = "ubuntu20.04") ∧
    (h.upstreamLsbRelease = none → h.etcOsRelease = none →
      getHostPlatform h = "ubuntu20.04") := by
  refine ⟨?_, ?_, ?_⟩
  · intro n hn
    unfold getHostPlatform
    rw [hplat, if_neg (by decide), if_pos rfl, hn]
    simp only [jsLE]
    by_cases hle : n ≤ 19
    · simp [hle]
    · simp [hle]
  · intro hn
    unfold getHostPlatform
    rw [hplat, if_neg (by decide), if_pos rfl, hn]
    simp [jsLE]
  · intro h1 h2
    have hv : getUbuntuVersionSync h = "" := by
      simp [getUbuntuVersionSync, hplat, h1, h2]
    unfold getHostPlatform
    rw [hplat, if_neg (by decide), if_pos rfl, hv,
      show jsParseInt "" = none from by decide]
    simp [jsLE]

/-- Witness for C6 at a concrete linux host carrying an Ubuntu 18.04
os-release file. -/
theorem getHostPlatform_linux_buckets_witness :
    getHostPlatform
      ⟨"linux", "", "", none, some "NAME=\"Ubuntu\"\nVERSION_ID=\"18.04\""⟩ =
      "ubuntu18.04" := by
  have h := getHostPlatform_linux_buckets
    ⟨"linux", "", "", none, some "NAME=\"Ubuntu\"\nVERSION_ID=\"18.04\""⟩ rfl
  rw [h.1 18 (by decide)]
  decide

/-- A successful `pairsOfLines` run produced each pair from one of its
lines. -/
theorem pairsOfLines_mem {lines : List String} {pairs : List (String × String)}
    (hok : pairsOfLines lines = Except.ok pairs) :
    ∀ pr ∈ pairs, ∃ line ∈ lines, linePair? line = some pr := by
  induction lines generalizing pairs with
  | nil =>
    unfold pairsOfLines at hok
    obtain rfl : pairs = [] := by
      cases hok
      rfl
    intro pr hpr
    cases hpr
  | cons l rest ih =>
    unfold pairsOfLines at hok
    cases hl : linePair? l with
    | none => rw [hl] at hok; cases hok
    | some pr0 =>
      rw [hl] at hok
      cases hr : pairsOfLines rest with
      | error e => rw [hr] at hok; cases hok
      | ok prs =>
        rw [hr] at hok
        obtain rfl : pairs = pr0 :: prs := by
          cases hok
          rfl
        intro pr hpr
        rcases List.mem_cons.mp hpr with rfl | hpr
        · exact ⟨l, List.mem_cons_self l rest, hl⟩
        · obtain ⟨line, hline, hp⟩ := ih hr pr hpr
          exact ⟨line, List.mem_cons_of_mem l hline, hp⟩

/-- A produced pair is the first token paired with the inner slice of the
second token. -/
theorem linePair?_eq_some {line : String} {pr : String × String}
    (h : linePair? line = some pr) :
    ∃ t0 t1 rest, jsSplitWs line = t0 :: t1 :: rest ∧
      pr = (t0, jsSliceInner t1) := by
  unfold linePair? at h
  cases e : jsSplitWs line with
  | nil => rw [e] at h; cases h
  | cons t0 ts =>
    cases ts with
    | nil => rw [e] at h; cases h
    | cons t1 rest =>
      rw [e] at h
      cases h
      exact ⟨t0, t1, rest, rfl, rfl⟩

/-- C4: the example line parses to the example pair; a trimmed line belongs
to the kept manifest lines exactly when it starts with `content/` and ends
with `)`; and every produced pair is, for some kept line, the line's first
whitespace token paired with its second token stripped of its delimiter
characters. -/
theorem manifestPairs_spec :
    (manifestPairs "content/foo/bar.js (./foo/bar.js)" =
      Except.ok [("content/foo/bar.js", "./foo/bar.js")]) ∧
    (∀ jarmn line, line ∈ jsSplitChar '\n' jarmn →
      (jsTrim line ∈ jarLines jarmn ↔
        (jsStartsWith (jsTrim line) "content/" && jsEndsWith (jsTrim line) ")") = true)) ∧
    (∀ jarmn pairs, manifestPairs jarmn = Except.ok pairs →
      ∀ pr ∈ pairs, ∃ line ∈ jarLines jarmn, ∃ t0 t1 rest,
        jsSplitWs line = t0 :: t1 :: rest ∧ pr = (t0, jsSliceInner t1)) := by
  refine ⟨by rfl, ?_, ?_⟩
  · intro jarmn line hline
    constructor
    · intro hmem
      exact (List.mem_filter.mp hmem).2
    · intro hpred
      exact List.mem_filter.mpr ⟨List.mem_map_of_mem _ hline, hpred⟩
  · intro jarmn pairs hok pr hpr
    obtain ⟨line, hline, hp⟩ := pairsOfLines_mem hok pr hpr
    obtain ⟨t0, t1, rest, hsplit, hpr'⟩ := linePair?_eq_some hp
    exact ⟨line, hline, t0, t1, rest, hsplit, hpr'⟩

/-- Witness for C4: a non-conforming line of a concrete manifest is not
kept. -/
theorem manifestPairs_spec_witness :
    jsTrim " junk " ∉ jarLines "content/a.js (./a.js)\n junk " := by
  intro hmem
  have h := (manifestPairs_spec.2.1 "content/a.js (./a.js)\n junk " " junk "
    (by decide)).mp hmem
  exact absurd h (by decide)

/-- Following a redirect chain with enough fuel reaches the terminal
response. -/
theorem httpRequest_chain (net : String → HttpResponse) :
    ∀ (urls : List String) (final : String) (fuel : Nat),
      redirectChain net urls final → (net final).statusCode = 200 →
      urls.length < fuel →
      httpRequest net fuel (urls.headD final) = some (net final) := by
  intro urls
  induction urls with
  | nil =>
    intro final fuel _ h200 hfuel
    match fuel, hfuel with
    | fuel + 1, _ =>
      unfold httpRequest
      simp only [List.headD_nil]
      rw [if_neg]
      intro hc
      rw [h200] at hc
      omega
  | cons u rest ih =>
    intro final fuel hchain h200 hfuel
    obtain ⟨h3a, h3b, hloc, hne, hrest⟩ := hchain
    match fuel, hfuel with
    | f + 1, hf =>
      unfold httpRequest
      simp only [List.headD_cons]
      rw [if_pos ⟨h3a, h3b, hne⟩, hloc]
      exact ih final f hrest h200 (by simp only [List.length_cons] at hf; omega)

/-- C3: a download whose response chain is a sequence of
redirect-with-location responses ending in a 200 follows every hop (any
finite chain length, given enough fuel — the source has no hop cap) and
returns exactly the bytes of the final response body as the destination
file content. -/
theorem downloadFile_follows_redirect_chain (net : String → HttpResponse)
    (urls : List String) (final : String) (fuel : Nat)
    (hchain : redirectChain net urls final)
    (h200 : (net final).statusCode = 200)
    (hfuel : urls.length < fuel) :
    downloadFile net fuel (urls.headD final) = Except.ok (net final).body := by
  unfold downloadFile
  rw [httpRequest_chain net urls final fuel hchain h200 hfuel]
  simp [h200]

/-- Witness for C3: a two-hop concrete redirect chain delivering the final
body. -/
theorem downloadFile_follows_redirect_chain_witness :
    downloadFile
      (fun url =>
        if url = "http://a" then ⟨302, "http://b", "A"⟩
        else if url = "http://b" then ⟨307, "http://c", "B"⟩
        else ⟨200, "", "PAYLOAD"⟩) 5 "http://a" = Except.ok "PAYLOAD" := by
  have h := downloadFile_follows_redirect_chain
    (fun url =>
      if url = "http://a" then ⟨302, "http://b", "A"⟩
      else if url = "http://b" then ⟨307, "http://c", "B"⟩
      else ⟨200, "", "PAYLOAD"⟩)
    ["http://a", "http://b"] "http://c" 5
    (by simp only [redirectChain]; decide) (by decide) (by decide)
  exact h

/-- C7: when the terminal response of the (possibly redirected) request has
a status other than 200, the download fails — the destination file is
neither created nor written (`Except.error` carries no file content) — the
response body is drained, and the error message carries both the status
code and the URL. -/
theorem downloadFile_non200 (net : String → HttpResponse) (fuel : Nat)
    (url : String) (res : HttpResponse)
    (hterm : httpRequest net fuel url = some res)
    (hcode : res.statusCode ≠ 200) :
    ∃ e : DownloadError, downloadFile net fuel url = Except.error e ∧
      e.drainedBody = true ∧
      ∃ pre mid, e.message = pre ++ toString res.statusCode ++ mid ++ url := by
  refine ⟨⟨"Download failed: server returned code " ++ toString res.statusCode ++
    ". URL: " ++ url, true⟩, ?_, rfl,
    "Download failed: server returned code ", ". URL: ", rfl⟩
  unfold downloadFile
  rw [hterm]
  simp [hcode]

/-- Witness for C7 at a concrete 404 response. -/
theorem downloadFile_non200_witness :
    ∃ e : DownloadError,
      downloadFile (fun _ => ⟨404, "", "oops"⟩) 1 "http://x" = Except.error e ∧
      e.drainedBody = true ∧
      ∃ pre mid, e.message = pre ++ toString (404 : Nat) ++ mid ++ "http://x" :=
  downloadFile_non200 (fun _ => ⟨404, "", "oops"⟩) 1 "http://x" ⟨404, "", "oops"⟩
    (by decide) (by decide)

/-- Both variants have a URL template for every supported platform tag. -/
theorem ensure_tables {b : String} (hb : b = "firefox" ∨ b = "firefox-beta")
    {p : String} (hsup : supportedPlatform p) :
    ∃ tbl t, downloadURLs b = some tbl ∧ tbl p = some t := by
  rcases hb with hb | hb <;> subst hb <;>
    rcases hsup with h | h | h | h | h | h | h <;> subst h <;>
      exact ⟨_, _, rfl, rfl⟩

/-- A descriptor equals the request exactly when the three field equalities
of line 101 hold. -/
theorem buildInfo_eq_mk {c : BuildInfo} {n p b : String} :
    c = ⟨n, p, b⟩ ↔ (c.buildPlatform = p ∧ c.buildNumber = n ∧ c.browserName = b) := by
  cases c
  simp only [BuildInfo.mk.injEq]
  tauto

/-- Cache hit: a persisted descriptor matching the resolved request is
returned unchanged with no work. -/
theorem ensure_hit (b n p : String) (env : CacheEnv) (st : Option BuildInfo)
    (hn : n ≠ "") (hp : p ≠ "")
    (hcur : st.getD ⟨"", "", ""⟩ = ⟨n, p, b⟩) :
    ensureFirefoxBuild b (some n) (some p) env st =
      Except.ok (st, st.getD ⟨"", "", ""⟩, ⟨false, none, none⟩) := by
  unfold ensureFirefoxBuild
  simp only [Option.getD_some, hn, hp, if_false, ite_false]
  rw [if_pos (buildInfo_eq_mk.mp hcur)]

/-- Cache miss: any field mismatch wipes the stage, downloads, extracts
with overwrite disabled and permissions preserved, and persists the new
descriptor. -/
theorem ensure_miss (b n p : String) (env : CacheEnv) (st : Option BuildInfo)
    (hb : b = "firefox" ∨ b = "firefox-beta") (hn : n ≠ "") (hp : p ≠ "")
    (hsup : supportedPlatform p)
    (hcur : st.getD ⟨"", "", ""⟩ ≠ ⟨n, p, b⟩) :
    ∃ url, ensureFirefoxBuild b (some n) (some p) env st =
      Except.ok (some ⟨n, p, b⟩, ⟨n, p, b⟩, ⟨true, some url, some (false, true)⟩) := by
  obtain ⟨tbl, t, htbl, ht⟩ := ensure_tables hb hsup
  refine ⟨formatURL t n, ?_⟩
  unfold ensureFirefoxBuild
  simp only [Option.getD_some, hn, hp, if_false, ite_false]
  rw [if_neg (fun hand => hcur (buildInfo_eq_mk.mpr hand))]
  simp only [htbl, ht]

/-- C1: with the request resolved to a variant/number/platform triple,
`ensure` does no download, no extraction, and returns the persisted
descriptor with unchanged state exactly when the persisted descriptor
matches the request field-by-field; on any mismatch it wipes the stage
directory, downloads, extracts with overwrite disabled and permissions
preserved, and persists and returns the new descriptor; and a second call
with the same triple after any successful call does zero work and returns
the identical descriptor. -/
theorem ensureFirefoxBuild_cache_correct (b n p : String) (env : CacheEnv)
    (st : Option BuildInfo)
    (hb : b = "firefox" ∨ b = "firefox-beta") (hn : n ≠ "") (hp : p ≠ "")
    (hsup : supportedPlatform p) :
    (ensureFirefoxBuild b (some n) (some p) env st =
        Except.ok (st, st.getD ⟨"", "", ""⟩, ⟨false, none, none⟩) ↔
      st.getD ⟨"", "", ""⟩ = ⟨n, p, b⟩) ∧
    (st.getD ⟨"", "", ""⟩ ≠ ⟨n, p, b⟩ →
      ∃ url, ensureFirefoxBuild b (some n) (some p) env st =
        Except.ok (some ⟨n, p, b⟩, ⟨n, p, b⟩, ⟨true, some url, some (false, true)⟩)) ∧
    (∀ st1 d1 e1,
      ensureFirefoxBuild b (some n) (some p) env st = Except.ok (st1, d1, e1) →
      ensureFirefoxBuild b (some n) (some p) env st1 =
        Except.ok (st1, d1, ⟨false, none, none⟩)) := by
  refine ⟨⟨?_, ensure_hit b n p env st hn hp⟩,
    ensure_miss b n p env st hb hn hp hsup, ?_⟩
  · intro heq
    by_contra hcur
    obtain ⟨url, hm⟩ := ensure_miss b n p env st hb hn hp hsup hcur
    rw [hm] at heq
    simp only [Except.ok.injEq, Prod.mk.injEq] at heq
    exact absurd heq.2.2 (by simp)
  · intro st1 d1 e1 h1
    by_cases hcur : st.getD ⟨"", "", ""⟩ = ⟨n, p, b⟩
    · rw [ensure_hit b n p env st hn hp hcur] at h1
      simp only [Except.ok.injEq, Prod.mk.injEq] at h1
      obtain ⟨h1a, h1b, -⟩ := h1
      rw [← h1a, ← h1b]
      exact ensure_hit b n p env st hn hp hcur
    · obtain ⟨url, hm⟩ := ensure_miss b n p env st hb hn hp hsup hcur
      rw [hm] at h1
      simp only [Except.ok.injEq, Prod.mk.injEq] at h1
      obtain ⟨h1a, h1b, -⟩ := h1
      rw [← h1a, ← h1b]
      exact ensure_hit b n p env (some ⟨n, p, b⟩) hn hp rfl

/-- Witness for C1 at a concrete request against an empty cache. -/
theorem ensureFirefoxBuild_cache_correct_witness :
    (ensureFirefoxBuild "firefox" (some "1234") (some "mac11") ⟨"", ""⟩ none =
        Except.ok (none, (none : Option BuildInfo).getD ⟨"", "", ""⟩,
          ⟨false, none, none⟩) ↔
      (none : Option BuildInfo).getD ⟨"", "", ""⟩ = ⟨"1234", "mac11", "firefox"⟩) ∧
    ((none : Option BuildInfo).getD ⟨"", "", ""⟩ ≠ ⟨"1234", "mac11", "firefox"⟩ →
      ∃ url, ensureFirefoxBuild "firefox" (some "1234") (some "mac11") ⟨"", ""⟩ none =
        Except.ok (some ⟨"1234", "mac11", "firefox"⟩, ⟨"1234", "mac11", "firefox"⟩,
          ⟨true, some url, some (false, true)⟩)) ∧
    (∀ st1 d1 e1,
      ensureFirefoxBuild "firefox" (some "1234") (some "mac11") ⟨"", ""⟩ none =
        Except.ok (st1, d1, e1) →
      ensureFirefoxBuild "firefox" (some "1234") (some "mac11") ⟨"", ""⟩ st1 =
        Except.ok (st1, d1, ⟨false, none, none⟩)) :=
  ensureFirefoxBuild_cache_correct "firefox" "1234" "mac11" ⟨"", ""⟩ none
    (Or.inl rfl) (by decide) (by decide) (by decide)

/-- C9: with the persisted descriptor missing or unparseable (state
`none`), the catch-supplied descriptor has three empty fields and cannot
match any resolvable request (whose variant is a non-empty variant name):
`ensure` never takes the cache-hit path and always wipes and re-stages. -/
theorem ensureFirefoxBuild_corrupt_never_hits (b n p : String) (env : CacheEnv)
    (hb : b = "firefox" ∨ b = "firefox-beta") (hn : n ≠ "") (hp : p ≠ "")
    (hsup : supportedPlatform p) :
    (Option.getD (none : Option BuildInfo) ⟨"", "", ""⟩ ≠ ⟨n, p, b⟩) ∧
    ∃ url, ensureFirefoxBuild b (some n) (some p) env none =
      Except.ok (some ⟨n, p, b⟩, ⟨n, p, b⟩, ⟨true, some url, some (false, true)⟩) := by
  have hbne : b ≠ "" := by rcases hb with hb | hb <;> subst hb <;> decide
  have hne : Option.getD (none : Option BuildInfo) ⟨"", "", ""⟩ ≠ ⟨n, p, b⟩ := by
    intro he
    exact hbne ((buildInfo_eq_mk.mp he).2.2.symm)
  exact ⟨hne, ensure_miss b n p env none hb hn hp hsup hne⟩

/-- Witness for C9 at a concrete request. -/
theorem ensureFirefoxBuild_corrupt_never_hits_witness :
    (Option.getD (none : Option BuildInfo) ⟨"", "", ""⟩ ≠
      ⟨"1234", "ubuntu20.04", "firefox-beta"⟩) ∧
    ∃ url, ensureFirefoxBuild "firefox-beta" (some "1234") (some "ubuntu20.04")
        ⟨"", ""⟩ none =
      Except.ok (some ⟨"1234", "ubuntu20.04", "firefox-beta"⟩,
        ⟨"1234", "ubuntu20.04", "firefox-beta"⟩,
        ⟨true, some url, some (false, true)⟩) :=
  ensureFirefoxBuild_corrupt_never_hits "firefox-beta" "1234" "ubuntu20.04"
    ⟨"", ""⟩ (Or.inr rfl) (by decide) (by decide) (by decide)

/-- `admOpen` only fails with an `err` (never a `process.exit`). -/
theorem admOpen_error {fs : FSys} {p : FPath} {e : RepackFailure}
    (h : admOpen fs p = Except.error e) : ∃ m, e = RepackFailure.err m := by
  unfold admOpen at h
  cases hl : lookupFile fs p with
  | none => rw [hl] at h; cases h; exact ⟨_, rfl⟩
  | some d =>
    cases d with
    | bytes s => rw [hl] at h; cases h; exact ⟨_, rfl⟩
    | zip es => rw [hl] at h; cases h

/-- When no candidate opens to an archive with a marker entry, the scan
returns `none` or throws. -/
theorem findOmniLoop_no_marker {fs : FSys} {l : List FPath}
    (h : ∀ q ∈ l, ∀ E, admOpen fs q = Except.ok E → ∀ e ∈ E, markerEntry e = false) :
    findOmniLoop fs l = Except.ok none ∨
      ∃ m, findOmniLoop fs l = Except.error (.err m) := by
  induction l with
  | nil => left; rfl
  | cons q rest ih =>
    unfold findOmniLoop
    cases ha : admOpen fs q with
    | error e =>
      obtain ⟨m, rfl⟩ := admOpen_error ha
      right
      exact ⟨m, rfl⟩
    | ok E =>
      have hnone : E.any markerEntry = false :=
        List.any_eq_false.mpr (fun e he => by
          simp [h q (List.mem_cons_self q rest) E ha e he])
      simp only [hnone, Bool.false_eq_true, if_false, ite_false]
      exact ih (fun q' hq' => h q' (List.mem_cons_of_mem q hq'))

/-- A successful scan returns the first candidate containing a marker
entry: every earlier candidate opened cleanly and had none. -/
theorem findOmniLoop_first {fs : FSys} {l : List FPath} {p : FPath}
    (h : findOmniLoop fs l = Except.ok (some p)) :
    ∃ l1 l2, l = l1 ++ p :: l2 ∧
      (∃ E, admOpen fs p = Except.ok E ∧ ∃ e ∈ E, markerEntry e = true) ∧
      (∀ q ∈ l1, ∃ E, admOpen fs q = Except.ok E ∧
        ∀ e ∈ E, markerEntry e = false) := by
  induction l with
  | nil => cases h
  | cons q rest ih =>
    unfold findOmniLoop at h
    cases ha : admOpen fs q with
    | error e => rw [ha] at h; cases h
    | ok E =>
      rw [ha] at h
      cases hany : E.any markerEntry with
      | true =>
        simp only [hany, if_true] at h
        cases h
        obtain ⟨e, he, hme⟩ := List.any_eq_true.mp hany
        exact ⟨[], rest, rfl, ⟨E, ha, e, he, hme⟩, fun q' hq' => absurd hq' (by simp)⟩
      | false =>
        simp only [hany, Bool.false_eq_true, if_false, ite_false] at h
        obtain ⟨l1, l2, hl, hsel, hskip⟩ := ih h
        refine ⟨q :: l1, l2, by rw [hl]; rfl, hsel, ?_⟩
        intro q' hq'
        rcases List.mem_cons.mp hq' with rfl | hq'
        · exact ⟨E, ha, fun e he => by simpa using List.any_eq_false.mp hany e he⟩
        · exact hskip q' hq'

/-- A successful `repackageJuggler` run selected its returned path by the
candidate scan. -/
theorem repackageJuggler_ok_selected {jarmn : String} {jsrc : String → Option String}
    {fs fs1 : FSys} {p : FPath} {created : Bool}
    (h : repackageJuggler jarmn jsrc fs = Except.ok (fs1, p, created)) :
    findOmniLoop fs (candidates fs) = Except.ok (some p) := by
  unfold repackageJuggler at h
  cases e : findOmniLoop fs (candidates fs) with
  | error er => rw [e] at h; cases h
  | ok o =>
    cases o with
    | none => rw [e] at h; cases h
    | some p0 =>
      simp only [e] at h
      cases e2 : stageBackup fs p0 with
      | error er => simp only [e2] at h; cases h
      | ok pr =>
        obtain ⟨fsb, created0⟩ := pr
        simp only [e2] at h
        cases e3 : patchFromBackup jarmn jsrc fsb with
        | error er => simp only [e3] at h; cases h
        | ok fsp =>
          simp only [e3] at h
          cases e4 : rebuildOmni fsp p0 with
          | error er => simp only [e4, Except.map] at h; cases h
          | ok fs2 =>
            simp only [e4, Except.map] at h
            cases h
            rfl

/-- C8: the target archive is the first enumerated `omni.ja` candidate
containing an entry whose name includes `chrome/juggler`; when no candidate
contains such an entry the process terminates with a non-zero status
(`process.exit(1)` on a clean scan, exit 1 via unhandled rejection when a
candidate cannot be opened). -/
theorem repackageJuggler_selects_first_marker (jarmn : String)
    (jsrc : String → Option String) (fs : FSys) :
    ((∀ q ∈ candidates fs, ∀ E, admOpen fs q = Except.ok E →
        ∀ e ∈ E, markerEntry e = false) →
      repackExitCode (repackageJuggler jarmn jsrc fs) = 1) ∧
    (∀ fs1 p created, repackageJuggler jarmn jsrc fs = Except.ok (fs1, p, created) →
      ∃ l1 l2, candidates fs = l1 ++ p :: l2 ∧
        (∃ E, admOpen fs p = Except.ok E ∧ ∃ e ∈ E, markerEntry e = true) ∧
        (∀ q ∈ l1, ∃ E, admOpen fs q = Except.ok E ∧
          ∀ e ∈ E, markerEntry e = false)) := by
  constructor
  · intro h
    rcases findOmniLoop_no_marker h with hsel | ⟨m, hsel⟩ <;>
      · unfold repackageJuggler
        rw [hsel]
        rfl
  · intro fs1 p created h
    exact findOmniLoop_first (repackageJuggler_ok_selected h)

/-- Witness for C8: a stage holding a single candidate archive without the
marker subtree exits non-zero. -/
theorem repackageJuggler_selects_first_marker_witness :
    repackExitCode (repackageJuggler "" (fun _ => none)
      ⟨[(BUILD_DIRECTORY ++ ["firefox", "omni.ja"],
         FileData.zip [(["foo"], "x")])]⟩) = 1 := by
  apply (repackageJuggler_selects_first_marker "" (fun _ => none) _).1
  intro q hq E hE e he
  have hc : candidates ⟨[(BUILD_DIRECTORY ++ ["firefox", "omni.ja"],
      FileData.zip [(["foo"], "x")])]⟩ = [BUILD_DIRECTORY ++ ["firefox", "omni.ja"]] := by
    decide
  rw [hc] at hq
  simp only [List.mem_singleton] at hq
  subst hq
  rw [show admOpen ⟨[(BUILD_DIRECTORY ++ ["firefox", "omni.ja"],
      FileData.zip [(["foo"], "x")])]⟩ (BUILD_DIRECTORY ++ ["firefox", "omni.ja"]) =
      Except.ok [(["foo"], "x")] from rfl] at hE
  cases hE
  simp only [List.mem_singleton] at he
  subst he
  decide

/-! ### Path and filesystem lemmas -/

theorem pre_append_iff {a b q : FPath} :
    a ++ b <+: q ↔ (a <+: q ∧ b <+: q.drop a.length) := by
  constructor
  · rintro ⟨t, rfl⟩
    constructor
    · exact ⟨b ++ t, (List.append_assoc a b t).symm⟩
    · rw [List.append_assoc, List.drop_left]
      exact List.prefix_append b t
  · rintro ⟨⟨r, rfl⟩, hb⟩
    rw [List.drop_left] at hb
    obtain ⟨t, rfl⟩ := hb
    exact ⟨t, List.append_assoc a b t⟩

theorem pre_mono_append {a x y : FPath} (h : x <+: y) : a ++ x <+: a ++ y := by
  obtain ⟨t, rfl⟩ := h
  exact ⟨t, List.append_assoc a x t⟩

theorem isPre_true_iff {a b : FPath} : a.isPrefixOf b = true ↔ a <+: b :=
  List.isPrefixOf_iff_prefix

theorem find?_filter_of_imp {α : Type} {l : List α} {pq pf : α → Bool}
    (h : ∀ e, pq e = true → pf e = true) :
    (l.filter pf).find? pq = l.find? pq := by
  induction l with
  | nil => rfl
  | cons e rest ih =>
    cases hq : pq e with
    | true =>
      rw [List.filter_cons, if_pos (h e hq), List.find?_cons_of_pos _ hq,
        List.find?_cons_of_pos _ hq]
    | false =>
      rw [List.find?_cons_of_neg _ (by simp [hq])]
      cases hf : pf e with
      | true =>
        rw [List.filter_cons, if_pos hf, List.find?_cons_of_neg _ (by simp [hq])]
        exact ih
      | false =>
        rw [List.filter_cons, if_neg (by simp [hf])]
        exact ih

theorem lookup_filter_pred (fs : FSys) (pf : FPath × FileData → Bool) (q : FPath)
    (h : ∀ e : FPath × FileData, e.1 = q → pf e = true) :
    lookupFile ⟨fs.files.filter pf⟩ q = lookupFile fs q := by
  unfold lookupFile
  rw [find?_filter_of_imp (fun e he => h e (by simpa using he))]

theorem lookup_setFile_self (fs : FSys) (k : FPath) (d : FileData) :
    lookupFile (setFile fs k d) k = some d := by
  unfold lookupFile setFile
  rw [List.find?_append]
  have h1 : (fs.files.filter (fun e => e.1 != k)).find? (fun e => e.1 == k) = none := by
    rw [List.find?_eq_none]
    intro e he
    have := List.of_mem_filter he
    simp only [bne_iff_ne, ne_eq] at this
    simp [this]
  rw [h1]
  simp [List.find?]

theorem lookup_setFile_ne (fs : FSys) {k q : FPath} (d : FileData) (hne : q ≠ k) :
    lookupFile (setFile fs k d) q = lookupFile fs q := by
  unfold lookupFile setFile
  rw [List.find?_append]
  have h2 : ([(k, d)].find? (fun e => e.1 == q)) = none := by
    simp [List.find?, beq_eq_false_iff_ne.mpr (Ne.symm hne)]
  rw [h2, Option.or_none]
  rw [find?_filter_of_imp]
  intro e he
  have : e.1 = q := by simpa using he
  simp [this, hne]

theorem lookup_removeTree (fs : FSys) {d q : FPath} (h : ¬ d <+: q) :
    lookupFile (removeTree fs d) q = lookupFile fs q := by
  apply lookup_filter_pred
  intro e he
  subst he
  cases hb : d.isPrefixOf e.1 with
  | false => simp [hb]
  | true => exact absurd (isPre_true_iff.mp hb) h

theorem lookup_unlink (fs : FSys) {p q : FPath} (h : q ≠ p) :
    lookupFile ⟨fs.files.filter (fun e => e.1 != p)⟩ q = lookupFile fs q := by
  apply lookup_filter_pred
  intro e he
  subst he
  simp [h]

theorem pathExists_iff {fs : FSys} {p : FPath} :
    pathExists fs p = true ↔ ∃ e ∈ fs.files, p <+: e.1 := by
  unfold pathExists
  rw [List.any_eq_true]
  constructor
  · rintro ⟨e, he, hp⟩
    exact ⟨e, he, isPre_true_iff.mp hp⟩
  · rintro ⟨e, he, hp⟩
    exact ⟨e, he, isPre_true_iff.mpr hp⟩

theorem lookup_mem {fs : FSys} {q : FPath} {d : FileData}
    (h : lookupFile fs q = some d) : (q, d) ∈ fs.files := by
  unfold lookupFile at h
  cases hf : fs.files.find? (fun e => e.1 == q) with
  | none => rw [hf] at h; cases h
  | some e =>
    rw [hf] at h
    have hmem := List.mem_of_find?_eq_some hf
    have hkey : e.1 = q := by simpa using List.find?_some hf
    obtain ⟨e1, e2⟩ := e
    have hd : e2 = d := by simpa using h
    have hkey2 : e1 = q := hkey
    subst hd
    subst hkey2
    exact hmem

theorem pathExists_of_lookup {fs : FSys} {p : FPath} {d : FileData}
    (h : lookupFile fs p = some d) : pathExists fs p = true :=
  pathExists_iff.mpr ⟨(p, d), lookup_mem h, List.prefix_refl p⟩

theorem pathExists_le {fs : FSys} {a b : FPath} (hab : a <+: b)
    (h : pathExists fs b = true) : pathExists fs a = true := by
  obtain ⟨e, he, hp⟩ := pathExists_iff.mp h
  exact pathExists_iff.mpr ⟨e, he, hab.trans hp⟩

theorem pathExists_setFile_iff {fs : FSys} {k q : FPath} {v : FileData} :
    pathExists (setFile fs k v) q = true ↔ (q <+: k ∨ pathExists fs q = true) := by
  constructor
  · intro h
    obtain ⟨e, he, hp⟩ := pathExists_iff.mp h
    rcases List.mem_append.mp he with hin | hin
    · exact Or.inr (pathExists_iff.mpr ⟨e, List.mem_of_mem_filter hin, hp⟩)
    · rw [List.mem_singleton] at hin
      subst hin
      exact Or.inl hp
  · rintro (hk | hfs)
    · exact pathExists_iff.mpr ⟨(k, v), List.mem_append_right _ (List.mem_singleton.mpr rfl), hk⟩
    · obtain ⟨e, he, hp⟩ := pathExists_iff.mp hfs
      by_cases hek : e.1 = k
      · exact pathExists_iff.mpr ⟨(k, v),
          List.mem_append_right _ (List.mem_singleton.mpr rfl), hek ▸ hp⟩
      · exact pathExists_iff.mpr ⟨e,
          List.mem_append_left _ (List.mem_filter.mpr ⟨he, by simp [hek]⟩), hp⟩

theorem keys_setFile {fs : FSys} {k q : FPath} {v : FileData}
    (h : q ∈ keysOf (setFile fs k v)) : q ∈ keysOf fs ∨ q = k := by
  unfold keysOf setFile at h
  unfold keysOf
  rw [List.map_append, List.mem_append] at h
  rcases h with h | h
  · obtain ⟨e, he, rfl⟩ := List.mem_map.mp h
    exact Or.inl (List.mem_map_of_mem _ (List.mem_of_mem_filter he))
  · simp only [List.map_cons, List.map_nil, List.mem_singleton] at h
    exact Or.inr h

theorem keys_filter {fs : FSys} {pf : FPath × FileData → Bool} {q : FPath}
    (h : q ∈ keysOf ⟨fs.files.filter pf⟩) : q ∈ keysOf fs := by
  unfold keysOf at h ⊢
  obtain ⟨e, he, rfl⟩ := List.mem_map.mp h
  exact List.mem_map_of_mem _ (List.mem_of_mem_filter he)

theorem keys_of_lookup {fs : FSys} {q : FPath} {d : FileData}
    (h : lookupFile fs q = some d) : q ∈ keysOf fs :=
  List.mem_map_of_mem _ (lookup_mem h)

theorem extract_cons (fs : FSys) (e : List String × String)
    (E : List (List String × String)) (d : FPath) :
    extractAllTo fs (e :: E) d =
      extractAllTo (if pathExists fs (d ++ e.1) then fs
        else setFile fs (d ++ e.1) (.bytes e.2)) E d := by
  unfold extractAllTo
  rw [List.foldl_cons]

theorem lookup_extract_not_under {E : List (List String × String)} {d q : FPath}
    (h : ¬ d <+: q) :
    ∀ fs : FSys, lookupFile (extractAllTo fs E d) q = lookupFile fs q := by
  induction E with
  | nil => intro fs; rfl
  | cons e rest ih =>
    intro fs
    rw [extract_cons, ih]
    by_cases hex : pathExists fs (d ++ e.1) = true
    · rw [if_pos hex]
    · rw [if_neg hex, lookup_setFile_ne]
      intro hq
      subst hq
      exact h (List.prefix_append d e.1)

theorem pathExists_extract_mono {E : List (List String × String)} {d q : FPath} :
    ∀ fs : FSys, pathExists fs q = true → pathExists (extractAllTo fs E d) q = true := by
  induction E with
  | nil => intro fs h; exact h
  | cons e rest ih =>
    intro fs h
    rw [extract_cons]
    apply ih
    by_cases hex : pathExists fs (d ++ e.1) = true
    · rw [if_pos hex]; exact h
    · rw [if_neg hex]; exact pathExists_setFile_iff.mpr (Or.inr h)

theorem extract_target_exists {E : List (List String × String)} {d : FPath}
    {e : List String × String} (he : e ∈ E) :
    ∀ fs : FSys, pathExists (extractAllTo fs E d) (d ++ e.1) = true := by
  induction E with
  | nil => cases he
  | cons e0 rest ih =>
    intro fs
    rcases List.mem_cons.mp he with rfl | he'
    · rw [extract_cons]
      apply pathExists_extract_mono
      by_cases hex : pathExists fs (d ++ e.1) = true
      · rw [if_pos hex]; exact hex
      · rw [if_neg hex]
        exact pathExists_setFile_iff.mpr (Or.inl (List.prefix_refl _))
    · rw [extract_cons]
      exact ih he' _

theorem keys_extract {E : List (List String × String)} {d q : FPath} :
    ∀ fs : FSys, q ∈ keysOf (extractAllTo fs E d) →
      q ∈ keysOf fs ∨ ∃ e ∈ E, q = d ++ e.1 := by
  induction E with
  | nil => intro fs h; exact Or.inl h
  | cons e0 rest ih =>
    intro fs h
    rw [extract_cons] at h
    rcases ih _ h with h' | ⟨e, he, rfl⟩
    · by_cases hex : pathExists fs (d ++ e0.1) = true
      · rw [if_pos hex] at h'
        exact Or.inl h'
      · rw [if_neg hex] at h'
        rcases keys_setFile h' with h'' | rfl
        · exact Or.inl h''
        · exact Or.inr ⟨e0, List.mem_cons_self _ _, rfl⟩
    · exact Or.inr ⟨e, List.mem_cons_of_mem _ he, rfl⟩

theorem removeTree_no_keys {fs : FSys} {d : FPath} {e : FPath × FileData}
    (he : e ∈ (removeTree fs d).files) : ¬ d <+: e.1 := by
  unfold removeTree at he
  have := List.of_mem_filter he
  intro hd
  rw [isPre_true_iff.mpr hd] at this
  cases this

theorem candidates_iff {fs : FSys} {q : FPath} :
    q ∈ candidates fs ↔ (q ∈ keysOf fs ∧ BUILD_DIRECTORY <+: q ∧
      jsEndsWith (q.getLast?.getD "") "omni.ja" = true) := by
  unfold candidates listFilesUnder
  constructor
  · intro h
    have h1 := List.mem_filter.mp h
    have h2 := List.mem_filter.mp h1.1
    exact ⟨h2.1, isPre_true_iff.mp h2.2, h1.2⟩
  · rintro ⟨hk, hb, he⟩
    exact List.mem_filter.mpr ⟨List.mem_filter.mpr ⟨hk, isPre_true_iff.mpr hb⟩, he⟩

theorem copyJarEntries_eq {jsrc : String → Option String} :
    ∀ (pairs : List (String × String)) (fs : FSys),
      (∀ pr ∈ pairs, (jsrc pr.2).isSome = true) →
      (∀ pr ∈ pairs, ∀ e ∈ fs.files, e.1 ≠ OMNI_JUGGLER_DIR ++ jsSplitChar '/' pr.1) →
      (pairs.map (fun pr => jsSplitChar '/' pr.1)).Nodup →
      copyJarEntries jsrc pairs fs =
        Except.ok ⟨fs.files ++ pairs.filterMap (fun pr => (jsrc pr.2).map
          (fun s => (OMNI_JUGGLER_DIR ++ jsSplitChar '/' pr.1, FileData.bytes s)))⟩ := by
  intro pairs
  induction pairs with
  | nil =>
    intro fs _ _ _
    unfold copyJarEntries
    rw [List.filterMap_nil, List.append_nil]
  | cons pr rest ih =>
    intro fs hsrc hfresh hnd
    obtain ⟨s, hs⟩ := Option.isSome_iff_exists.mp (hsrc pr (List.mem_cons_self _ _))
    unfold copyJarEntries
    simp only [hs]
    have hkey : setFile fs (OMNI_JUGGLER_DIR ++ jsSplitChar '/' pr.1) (.bytes s) =
        ⟨fs.files ++ [(OMNI_JUGGLER_DIR ++ jsSplitChar '/' pr.1, FileData.bytes s)]⟩ := by
      unfold setFile
      congr 1
      rw [List.filter_eq_self.mpr]
      intro e he
      simpa using hfresh pr (List.mem_cons_self _ _) e he
    rw [hkey]
    rw [ih _ (fun pr' h' => hsrc pr' (List.mem_cons_of_mem _ h'))
      (fun pr' h' e he => by
        rcases List.mem_append.mp he with he' | he'
        · exact hfresh pr' (List.mem_cons_of_mem _ h') e he'
        · rw [List.mem_singleton] at he'
          subst he'
          intro hc
          have hsplit : jsSplitChar '/' pr.1 = jsSplitChar '/' pr'.1 :=
            List.append_cancel_left hc
          have hnd1 := List.nodup_cons.mp hnd
          apply hnd1.1
          rw [show (fun pr => jsSplitChar '/' pr.1) pr = jsSplitChar '/' pr.1 from rfl,
            hsplit]
          exact List.mem_map_of_mem _ h')
      (List.nodup_cons.mp hnd).2]
    rw [List.filterMap_cons]
    rw [hs]
    simp only [Option.map_some]
    rw [List.append_assoc]
    rfl

theorem keys_append_cases {l1 l2 : List (FPath × FileData)} {q : FPath}
    (h : q ∈ keysOf ⟨l1 ++ l2⟩) : q ∈ keysOf ⟨l1⟩ ∨ q ∈ keysOf ⟨l2⟩ := by
  unfold keysOf at h ⊢
  rw [List.map_append, List.mem_append] at h
  exact h

theorem lookup_append_right_none {l1 l2 : List (FPath × FileData)} {q : FPath}
    (h2 : ∀ c ∈ l2, c.1 ≠ q) : lookupFile ⟨l1 ++ l2⟩ q = lookupFile ⟨l1⟩ q := by
  unfold lookupFile
  rw [List.find?_append]
  have hn : l2.find? (fun e => e.1 == q) = none :=
    List.find?_eq_none.mpr (fun c hc => by simp [h2 c hc])
  rw [hn, Option.or_none]

theorem jug_pre_iff {q : FPath} :
    OMNI_JUGGLER_DIR <+: q ↔
      (OMNI_EXTRACT_DIR <+: q ∧ MARKER <+: q.drop OMNI_EXTRACT_DIR.length) :=
  pre_append_iff

theorem filter_map_eq_filterMap {α β : Type} (p : α → Bool) (f : α → β) (l : List α) :
    (l.filter p).map f = l.filterMap (fun x => if p x then some (f x) else none) := by
  induction l with
  | nil => rfl
  | cons a t ih =>
    cases hp : p a with
    | true => rw [List.filter_cons, if_pos hp, List.map_cons, List.filterMap_cons, if_pos hp, ih]
    | false => rw [List.filter_cons, if_neg (by simp [hp]), List.filterMap_cons, if_neg (by simp [hp]), ih]

theorem markerSubtree_addLocalFolder (fs : FSys) :
    markerSubtree (addLocalFolder fs OMNI_EXTRACT_DIR) =
      (fs.files.filter (fun e => OMNI_JUGGLER_DIR.isPrefixOf e.1)).map
        (fun e => (e.1.drop OMNI_JUGGLER_DIR.length, rawContent e.2)) := by
  unfold markerSubtree addLocalFolder
  rw [List.filterMap_filterMap, filter_map_eq_filterMap]
  congr 1
  funext e
  by_cases h3 : OMNI_EXTRACT_DIR <+: e.1
  · rw [if_pos (isPre_true_iff.mpr h3)]
    simp only [Option.some_bind]
    by_cases h5 : MARKER <+: e.1.drop OMNI_EXTRACT_DIR.length
    · rw [if_pos (isPre_true_iff.mpr h5),
        if_pos (isPre_true_iff.mpr (jug_pre_iff.mpr ⟨h3, h5⟩))]
      rw [List.drop_drop]
      rfl
    · rw [if_neg (by rw [isPre_true_iff]; exact h5),
        if_neg (by rw [isPre_true_iff]; exact fun hc => h5 (jug_pre_iff.mp hc).2)]
  · rw [if_neg (by rw [isPre_true_iff]; exact h3),
      if_neg (by rw [isPre_true_iff]; exact fun hc => h3 (jug_pre_iff.mp hc).1)]
    rfl

theorem mapped_ne_nil {jsrc : String → Option String} {pairs : List (String × String)}
    (hne : pairs ≠ []) (hsrc : ∀ pr ∈ pairs, (jsrc pr.2).isSome = true) :
    mappedFiles jsrc pairs ≠ [] := by
  cases pairs with
  | nil => exact absurd rfl hne
  | cons pr rest =>
    obtain ⟨s, hs⟩ := Option.isSome_iff_exists.mp (hsrc pr (List.mem_cons_self _ _))
    unfold mappedFiles
    rw [List.filterMap_cons, hs]
    simp

theorem markerSubtree_ne_nil_entry {E : List (List String × String)}
    (h : markerSubtree E ≠ []) : ∃ e ∈ E, MARKER <+: e.1 := by
  unfold markerSubtree at h
  rw [ne_eq, List.filterMap_eq_nil_iff] at h
  push_neg at h
  obtain ⟨e, he, hne⟩ := h
  refine ⟨e, he, ?_⟩
  by_contra hm
  exact hne (by rw [if_neg (by rw [isPre_true_iff]; exact hm)])

theorem admOpen_of_zip {fs : FSys} {p : FPath} {E : List (List String × String)}
    (h : lookupFile fs p = some (FileData.zip E)) : admOpen fs p = Except.ok E := by
  unfold admOpen
  rw [h]

theorem findOmniLoop_unique {fs : FSys} {l : List FPath} {p : FPath}
    (hmem : p ∈ l)
    (hq : ∃ E0, admOpen fs p = Except.ok E0 ∧ E0.any markerEntry = true)
    (ho : ∀ q ∈ l, q ≠ p →
      ∃ Q, admOpen fs q = Except.ok Q ∧ Q.any markerEntry = false) :
    findOmniLoop fs l = Except.ok (some p) := by
  induction l with
  | nil => cases hmem
  | cons q rest ih =>
    unfold findOmniLoop
    by_cases hqp : q = p
    · subst hqp
      obtain ⟨E0, hE0, hany⟩ := hq
      rw [hE0]
      simp [hany]
    · obtain ⟨Q, hQ, hany⟩ := ho q (List.mem_cons_self _ _) hqp
      rw [hQ]
      simp only [hany, Bool.false_eq_true, if_false, ite_false]
      exact ih (List.mem_of_ne_of_mem (fun hc => hqp hc.symm) hmem)
        (fun q' hq' hq'p => ho q' (List.mem_cons_of_mem _ hq') hq'p)

/-! ### One patch-and-rebuild pass -/

theorem copiesOf_key {jsrc : String → Option String} {pairs : List (String × String)}
    {c : FPath × FileData} (hc : c ∈ copiesOf jsrc pairs) :
    ∃ pr ∈ pairs, c.1 = OMNI_JUGGLER_DIR ++ jsSplitChar '/' pr.1 := by
  unfold copiesOf at hc
  obtain ⟨pr, hpr, hmap⟩ := List.mem_filterMap.mp hc
  obtain ⟨s, _, hcs⟩ := Option.map_eq_some'.mp hmap
  exact ⟨pr, hpr, by rw [← hcs]⟩

theorem copiesOf_scr {jsrc : String → Option String} {pairs : List (String × String)}
    {c : FPath × FileData} (hc : c ∈ copiesOf jsrc pairs) :
    OMNI_EXTRACT_DIR <+: c.1 := by
  obtain ⟨pr, _, hkey⟩ := copiesOf_key hc
  rw [hkey]
  show OMNI_EXTRACT_DIR <+: (OMNI_EXTRACT_DIR ++ MARKER) ++ jsSplitChar '/' pr.1
  rw [List.append_assoc]
  exact List.prefix_append _ _

theorem stageE_no_jug {fsb : FSys} {P : List (List String × String)}
    {e : FPath × FileData} (he : e ∈ (stageE fsb P).files) :
    ¬ OMNI_JUGGLER_DIR <+: e.1 :=
  removeTree_no_keys he

theorem patchFromBackup_run (jarmn : String) (jsrc : String → Option String)
    (fsb : FSys) {P : List (List String × String)}
    {pairs : List (String × String)}
    (hbackup : lookupFile fsb OMNI_BACKUP_PATH = some (FileData.zip P))
    (hmk : ∃ e ∈ P, MARKER <+: e.1)
    (hman : manifestPairs jarmn = Except.ok pairs)
    (hsrc : ∀ pr ∈ pairs, (jsrc pr.2).isSome = true)
    (hnd : (pairs.map (fun pr => jsSplitChar '/' pr.1)).Nodup) :
    patchFromBackup jarmn jsrc fsb = Except.ok (stageF jsrc pairs fsb P) := by
  have hbNotScratch : ¬ OMNI_EXTRACT_DIR <+: OMNI_BACKUP_PATH := by decide
  have hA_backup : lookupFile (removeTree fsb OMNI_EXTRACT_DIR) OMNI_BACKUP_PATH =
      some (FileData.zip P) := by
    rw [lookup_removeTree _ hbNotScratch]
    exact hbackup
  obtain ⟨em, hem, hemPre⟩ := hmk
  have hD : pathExists
      (extractAllTo (removeTree fsb OMNI_EXTRACT_DIR) P OMNI_EXTRACT_DIR)
      OMNI_JUGGLER_DIR = true := by
    refine pathExists_le ?_ (extract_target_exists hem _)
    exact pre_mono_append hemPre
  have hfreshE : ∀ pr ∈ pairs, ∀ e ∈ (stageE fsb P).files,
      e.1 ≠ OMNI_JUGGLER_DIR ++ jsSplitChar '/' pr.1 := by
    intro pr hpr e he hc
    exact stageE_no_jug he (hc ▸ List.prefix_append _ _)
  have hcopy := copyJarEntries_eq pairs (stageE fsb P) hsrc hfreshE hnd
  simp only [patchFromBackup, admOpen_of_zip hA_backup, hD, if_true, hman]
  exact hcopy

theorem stageF_lookup_off {jsrc : String → Option String}
    {pairs : List (String × String)} {fsb : FSys} {P : List (List String × String)}
    {q : FPath} (hq : ¬ OMNI_EXTRACT_DIR <+: q) :
    lookupFile (stageF jsrc pairs fsb P) q = lookupFile fsb q := by
  have h1 : lookupFile (stageF jsrc pairs fsb P) q = lookupFile (stageE fsb P) q := by
    unfold stageF
    exact lookup_append_right_none (fun c hc he => hq (he ▸ copiesOf_scr hc))
  rw [h1]
  unfold stageE
  rw [lookup_removeTree _ (fun hc => hq (jug_pre_iff.mp hc).1),
    lookup_extract_not_under hq, lookup_removeTree _ hq]

theorem stageFinal_lookup_off {jsrc : String → Option String}
    {pairs : List (String × String)} {fsb : FSys} {P : List (List String × String)}
    {p q : FPath} (hqp : q ≠ p) (hq : ¬ OMNI_EXTRACT_DIR <+: q) :
    lookupFile (stageFinal jsrc pairs fsb P p) q = lookupFile fsb q := by
  unfold stageFinal
  rw [lookup_setFile_ne _ _ hqp]
  have h2 : lookupFile (stageG jsrc pairs fsb P p) q =
      lookupFile (stageF jsrc pairs fsb P) q := by
    unfold stageG
    exact lookup_unlink _ hqp
  rw [h2, stageF_lookup_off hq]

theorem rebuildOmni_run (jsrc : String → Option String)
    (pairs : List (String × String)) (fsb : FSys)
    (P : List (List String × String)) (p : FPath)
    (hpex : (lookupFile (stageF jsrc pairs fsb P) p).isSome = true) :
    rebuildOmni (stageF jsrc pairs fsb P) p =
      Except.ok (stageFinal jsrc pairs fsb P p) := by
  unfold rebuildOmni unlinkFile
  rw [if_pos hpex]
  rfl

theorem stageG_jug_region {jsrc : String → Option String}
    {pairs : List (String × String)} {fsb : FSys} {P : List (List String × String)}
    {p : FPath} (hpScr : ¬ OMNI_EXTRACT_DIR <+: p) :
    (stageG jsrc pairs fsb P p).files.filter
      (fun e => OMNI_JUGGLER_DIR.isPrefixOf e.1) = copiesOf jsrc pairs := by
  have copies_ne_p : ∀ c ∈ copiesOf jsrc pairs, c.1 ≠ p :=
    fun c hc he => hpScr (he ▸ copiesOf_scr hc)
  unfold stageG stageF
  rw [List.filter_append, List.filter_append]
  have h1 : ((stageE fsb P).files.filter (fun e => e.1 != p)).filter
      (fun e => OMNI_JUGGLER_DIR.isPrefixOf e.1) = [] := by
    rw [List.filter_eq_nil_iff]
    intro e he
    rw [isPre_true_iff]
    exact stageE_no_jug (List.mem_of_mem_filter he)
  have h2a : (copiesOf jsrc pairs).filter (fun e => e.1 != p) = copiesOf jsrc pairs :=
    List.filter_eq_self.mpr (fun c hc => by simp [copies_ne_p c hc])
  have h2b : (copiesOf jsrc pairs).filter
      (fun e => OMNI_JUGGLER_DIR.isPrefixOf e.1) = copiesOf jsrc pairs := by
    apply List.filter_eq_self.mpr
    intro c hc
    obtain ⟨pr, _, hkey⟩ := copiesOf_key hc
    rw [isPre_true_iff, hkey]
    exact List.prefix_append _ _
  rw [h1, h2a, h2b, List.nil_append]

theorem map_filterMap_local {α β γ : Type} (f : α → Option β) (g : β → γ)
    (l : List α) :
    (l.filterMap f).map g = l.filterMap (fun x => (f x).map g) := by
  induction l with
  | nil => rfl
  | cons a t ih => cases hf : f a <;> simp [List.filterMap_cons, hf, ih]

theorem rebuiltEntries_subtree {jsrc : String → Option String}
    {pairs : List (String × String)} {fsb : FSys} {P : List (List String × String)}
    {p : FPath} (hpScr : ¬ OMNI_EXTRACT_DIR <+: p) :
    markerSubtree (rebuiltEntries jsrc pairs fsb P p) = mappedFiles jsrc pairs := by
  unfold rebuiltEntries
  rw [markerSubtree_addLocalFolder, stageG_jug_region hpScr]
  unfold copiesOf mappedFiles
  rw [map_filterMap_local]
  congr 1
  funext pr
  cases hs : jsrc pr.2 with
  | none => rfl
  | some s => rfl

theorem splitPred_ne_nil (p : Char → Bool) (l : List Char) : splitPred p l ≠ [] := by
  induction l with
  | nil => simp [splitPred]
  | cons c rest ih =>
    unfold splitPred
    cases h : splitPred p rest with
    | nil => exact absurd h ih
    | cons g gs => by_cases hp : p c <;> simp [hp]

theorem jsSplitChar_ne_nil (sep : Char) (s : String) : jsSplitChar sep s ≠ [] := by
  unfold jsSplitChar
  intro h
  exact splitPred_ne_nil _ _ (List.map_eq_nil_iff.mp h)

theorem keys_removeTree {fs : FSys} {d : FPath} {q : FPath}
    (hq : q ∈ keysOf (removeTree fs d)) : q ∈ keysOf fs :=
  keys_filter hq

theorem stageFinal_keys {jsrc : String → Option String}
    {pairs : List (String × String)} {fsb : FSys} {P : List (List String × String)}
    {p q : FPath} (hq : q ∈ keysOf (stageFinal jsrc pairs fsb P p)) :
    q = p ∨ OMNI_EXTRACT_DIR <+: q ∨ q ∈ keysOf fsb := by
  unfold stageFinal at hq
  rcases keys_setFile hq with hq | rfl
  · unfold stageG at hq
    have hq := keys_filter hq
    unfold stageF at hq
    rcases keys_append_cases hq with hq | hq
    · have hq2 : q ∈ keysOf (stageE fsb P) := hq
      unfold stageE at hq2
      have hq3 := keys_removeTree hq2
      rcases keys_extract _ hq3 with hq4 | ⟨e, _, rfl⟩
      · exact Or.inr (Or.inr (keys_removeTree hq4))
      · exact Or.inr (Or.inl (List.prefix_append _ _))
    · have : ∃ c ∈ copiesOf jsrc pairs, q = c.1 := by
        unfold keysOf at hq
        obtain ⟨c, hc, rfl⟩ := List.mem_map.mp hq
        exact ⟨c, hc, rfl⟩
      obtain ⟨c, hc, rfl⟩ := this
      exact Or.inr (Or.inl (copiesOf_scr hc))
  · exact Or.inl rfl

theorem stageFinal_scratch_keys {jsrc : String → Option String}
    {pairs : List (String × String)} {fsb : FSys} {P : List (List String × String)}
    {p q : FPath} (hpScr : ¬ OMNI_EXTRACT_DIR <+: p)
    (hq : q ∈ keysOf (stageFinal jsrc pairs fsb P p))
    (hs : OMNI_EXTRACT_DIR <+: q) :
    (∃ e ∈ P, q = OMNI_EXTRACT_DIR ++ e.1) ∨
      (∃ pr ∈ pairs, q = OMNI_JUGGLER_DIR ++ jsSplitChar '/' pr.1) := by
  unfold stageFinal at hq
  rcases keys_setFile hq with hq | rfl
  · unfold stageG at hq
    have hq := keys_filter hq
    unfold stageF at hq
    rcases keys_append_cases hq with hq | hq
    · have hq2 : q ∈ keysOf (stageE fsb P) := hq
      unfold stageE at hq2
      have hq3 := keys_removeTree hq2
      rcases keys_extract _ hq3 with hq4 | ⟨e, he, rfl⟩
      · exfalso
        unfold keysOf at hq4
        obtain ⟨e, he, rfl⟩ := List.mem_map.mp hq4
        exact removeTree_no_keys he hs
      · exact Or.inl ⟨e, he, rfl⟩
    · have : ∃ c ∈ copiesOf jsrc pairs, q = c.1 := by
        unfold keysOf at hq
        obtain ⟨c, hc, rfl⟩ := List.mem_map.mp hq
        exact ⟨c, hc, rfl⟩
      obtain ⟨c, hc, rfl⟩ := this
      obtain ⟨pr, hpr, hkey⟩ := copiesOf_key hc
      exact Or.inr ⟨pr, hpr, hkey⟩
  · exact absurd hs hpScr

/-- One full `repackageJuggler` pass over a well-staged build: it succeeds,
selects `p`, creates the backup exactly when none existed, keeps the
effective backup entries `P` intact, rebuilds the target archive with a
marker subtree holding exactly the manifest's mapped files, and leaves the
stage well-staged again (with the backup now present). -/
theorem repackage_run {jarmn : String} {jsrc : String → Option String}
    {fs : FSys} {p : FPath} {P : List (List String × String)}
    {pairs : List (String × String)}
    (W : WellStaged jarmn jsrc fs p P pairs) :
    ∃ fs' E',
      repackageJuggler jarmn jsrc fs =
        Except.ok (fs', p, !pathExists fs OMNI_BACKUP_PATH) ∧
      lookupFile fs' OMNI_BACKUP_PATH = some (FileData.zip P) ∧
      lookupFile fs' p = some (FileData.zip E') ∧
      markerSubtree E' = mappedFiles jsrc pairs ∧
      WellStaged jarmn jsrc fs' p P pairs := by
  obtain ⟨E0, hE0, hE0any⟩ := W.cand_qual
  have hsel : findOmniLoop fs (candidates fs) = Except.ok (some p) := by
    refine findOmniLoop_unique W.cand_mem ⟨E0, admOpen_of_zip hE0, hE0any⟩ ?_
    intro q hq hqp
    obtain ⟨Q, hQ, hQany⟩ := W.others q hq hqp
    exact ⟨Q, admOpen_of_zip hQ, hQany⟩
  have hpBuild : BUILD_DIRECTORY <+: p := (candidates_iff.mp W.cand_mem).2.1
  have hpEnds : jsEndsWith (p.getLast?.getD "") "omni.ja" = true :=
    (candidates_iff.mp W.cand_mem).2.2
  have hpNotBackup : p ≠ OMNI_BACKUP_PATH := by
    intro h
    rw [h] at hpEnds
    exact absurd hpEnds (by decide)
  have hbNotScratch : ¬ OMNI_EXTRACT_DIR <+: OMNI_BACKUP_PATH := by decide
  obtain ⟨fsb, hstage, hfsbBackup, hfsbGet, hfsbKeys⟩ :
      ∃ fsb, stageBackup fs p =
          Except.ok (fsb, !pathExists fs OMNI_BACKUP_PATH) ∧
        lookupFile fsb OMNI_BACKUP_PATH = some (FileData.zip P) ∧
        (∀ q, q ≠ OMNI_BACKUP_PATH → lookupFile fsb q = lookupFile fs q) ∧
        (∀ q, q ∈ keysOf fsb → q ∈ keysOf fs ∨ q = OMNI_BACKUP_PATH) := by
    rcases W.backupSpec with hb | ⟨hnb, hpP⟩
    · have hex : pathExists fs OMNI_BACKUP_PATH = true := pathExists_of_lookup hb
      refine ⟨fs, ?_, hb, fun q _ => rfl, fun q hq => Or.inl hq⟩
      unfold stageBackup
      rw [if_pos hex, hex]
      rfl
    · refine ⟨setFile fs OMNI_BACKUP_PATH (FileData.zip P), ?_,
        lookup_setFile_self _ _ _, fun q hq => lookup_setFile_ne _ _ hq,
        fun q hq => keys_setFile hq⟩
      unfold stageBackup
      rw [hnb, if_neg (by exact Bool.false_ne_true)]
      unfold copyFile
      rw [hpP]
      rfl
  have hfsbP : lookupFile fsb p = some (FileData.zip E0) := by
    rw [hfsbGet p hpNotBackup]
    exact hE0
  have hpatch := patchFromBackup_run jarmn jsrc fsb hfsbBackup W.markerInP
    W.pairsOk W.srcOk W.destsNodup
  have hpexF : (lookupFile (stageF jsrc pairs fsb P) p).isSome = true := by
    rw [stageF_lookup_off W.offScratch, hfsbP]
    rfl
  have hrebuild := rebuildOmni_run jsrc pairs fsb P p hpexF
  have hrepack : repackageJuggler jarmn jsrc fs =
      Except.ok (stageFinal jsrc pairs fsb P p, p, !pathExists fs OMNI_BACKUP_PATH) := by
    simp only [repackageJuggler, hsel, hstage, hpatch, hrebuild, Except.map]
  have hfinBackup : lookupFile (stageFinal jsrc pairs fsb P p) OMNI_BACKUP_PATH =
      some (FileData.zip P) := by
    rw [stageFinal_lookup_off (Ne.symm hpNotBackup) hbNotScratch]
    exact hfsbBackup
  have hfinP : lookupFile (stageFinal jsrc pairs fsb P p) p =
      some (FileData.zip (rebuiltEntries jsrc pairs fsb P p)) := by
    unfold stageFinal
    exact lookup_setFile_self _ _ _
  have hsub := @rebuiltEntries_subtree jsrc pairs fsb P p W.offScratch
  have hsubNe : markerSubtree (rebuiltEntries jsrc pairs fsb P p) ≠ [] := by
    rw [hsub]
    exact mapped_ne_nil W.pairsNe W.srcOk
  obtain ⟨e', he', he'pre⟩ := markerSubtree_ne_nil_entry hsubNe
  have hqual' : ∃ E0', lookupFile (stageFinal jsrc pairs fsb P p) p =
      some (FileData.zip E0') ∧ E0'.any markerEntry = true :=
    ⟨rebuiltEntries jsrc pairs fsb P p, hfinP,
      List.any_eq_true.mpr ⟨e', he', decide_eq_true he'pre.isInfix⟩⟩
  have hcand' : p ∈ candidates (stageFinal jsrc pairs fsb P p) :=
    candidates_iff.mpr ⟨keys_of_lookup hfinP, hpBuild, hpEnds⟩
  have hothers' : ∀ q ∈ candidates (stageFinal jsrc pairs fsb P p), q ≠ p →
      ∃ Q, lookupFile (stageFinal jsrc pairs fsb P p) q = some (FileData.zip Q) ∧
        Q.any markerEntry = false := by
    intro q hq hqp
    obtain ⟨hqkeys, hqBuild, hqEnds⟩ := candidates_iff.mp hq
    by_cases hscr : OMNI_EXTRACT_DIR <+: q
    · exfalso
      rcases stageFinal_scratch_keys W.offScratch hqkeys hscr with
        ⟨e, he, rfl⟩ | ⟨pr, hpr, rfl⟩
      · rw [W.entriesNoOmni e he] at hqEnds
        cases hqEnds
      · rw [List.getLast?_append_of_ne_nil _ (jsSplitChar_ne_nil _ _)] at hqEnds
        rw [W.destsNoOmni pr hpr] at hqEnds
        cases hqEnds
    · have hqNotBackup : q ≠ OMNI_BACKUP_PATH := by
        intro h
        rw [h] at hqEnds
        exact absurd hqEnds (by decide)
      rcases stageFinal_keys hqkeys with rfl | h | hqfsb
      · exact absurd rfl hqp
      · exact absurd h hscr
      · rcases hfsbKeys q hqfsb with hqfs0 | rfl
        · obtain ⟨Q, hQ, hQany⟩ := W.others q
            (candidates_iff.mpr ⟨hqfs0, hqBuild, hqEnds⟩) hqp
          refine ⟨Q, ?_, hQany⟩
          rw [stageFinal_lookup_off hqp hscr, hfsbGet q hqNotBackup]
          exact hQ
        · exact absurd rfl hqNotBackup
  refine ⟨stageFinal jsrc pairs fsb P p, rebuiltEntries jsrc pairs fsb P p,
    hrepack, hfinBackup, hfinP, hsub,
    ⟨hcand', hqual', hothers', W.offScratch, Or.inl hfinBackup, W.markerInP,
      W.entriesNoOmni, W.pairsOk, W.pairsNe, W.srcOk, W.destsNodup,
      W.destsNoOmni⟩⟩

/-- C2: running `ResourcePatcher.apply` twice against the same staged build
(no backup present at the start of the stage lifetime): the backup is
created by the first run only (flags `true` then `false`) and both runs
keep it byte-identical to the pristine target entries `P`; each run
extracts from that backup; and after each run the marker subtree of the
rebuilt target archive holds exactly the manifest's mapped files — no
stale entries from the first run survive into the second. -/
theorem repackageJuggler_patch_idempotent {jarmn : String}
    {jsrc : String → Option String} {fs0 : FSys} {p : FPath}
    {P : List (List String × String)} {pairs : List (String × String)}
    (W : WellStaged jarmn jsrc fs0 p P pairs)
    (hnb : pathExists fs0 OMNI_BACKUP_PATH = false) :
    ∃ fs1 fs2 E1 E2,
      repackageJuggler jarmn jsrc fs0 = Except.ok (fs1, p, true) ∧
      repackageJuggler jarmn jsrc fs1 = Except.ok (fs2, p, false) ∧
      lookupFile fs1 OMNI_BACKUP_PATH = some (FileData.zip P) ∧
      lookupFile fs2 OMNI_BACKUP_PATH = some (FileData.zip P) ∧
      lookupFile fs1 p = some (FileData.zip E1) ∧
      markerSubtree E1 = mappedFiles jsrc pairs ∧
      lookupFile fs2 p = some (FileData.zip E2) ∧
      markerSubtree E2 = mappedFiles jsrc pairs := by
  obtain ⟨fs1, E1, hrun1, hb1, hp1, hs1, W1⟩ := repackage_run W
  obtain ⟨fs2, E2, hrun2, hb2, hp2, hs2, -⟩ := repackage_run W1
  refine ⟨fs1, fs2, E1, E2, ?_, ?_, hb1, hb2, hp1, hs1, hp2, hs2⟩
  · rw [hnb] at hrun1
    exact hrun1
  · rw [pathExists_of_lookup hb1] at hrun2
    exact hrun2

/-- Witness for C2: a one-archive staged build with a one-line manifest,
patched twice. -/
theorem repackageJuggler_patch_idempotent_witness :
    ∃ fs1 fs2 E1 E2,
      repackageJuggler "content/a.js (./a.js)"
        (fun s => if s = "./a.js" then some "NEWCONTENT" else none)
        ⟨[(BUILD_DIRECTORY ++ ["firefox", "omni.ja"],
           FileData.zip [(["chrome", "juggler", "old.js"], "OLD")])]⟩ =
        Except.ok (fs1, BUILD_DIRECTORY ++ ["firefox", "omni.ja"], true) ∧
      repackageJuggler "content/a.js (./a.js)"
        (fun s => if s = "./a.js" then some "NEWCONTENT" else none) fs1 =
        Except.ok (fs2, BUILD_DIRECTORY ++ ["firefox", "omni.ja"], false) ∧
      lookupFile fs1 OMNI_BACKUP_PATH =
        some (FileData.zip [(["chrome", "juggler", "old.js"], "OLD")]) ∧
      lookupFile fs2 OMNI_BACKUP_PATH =
        some (FileData.zip [(["chrome", "juggler", "old.js"], "OLD")]) ∧
      lookupFile fs1 (BUILD_DIRECTORY ++ ["firefox", "omni.ja"]) =
        some (FileData.zip E1) ∧
      markerSubtree E1 = mappedFiles
        (fun s => if s = "./a.js" then some "NEWCONTENT" else none)
        [("content/a.js", "./a.js")] ∧
      lookupFile fs2 (BUILD_DIRECTORY ++ ["firefox", "omni.ja"]) =
        some (FileData.zip E2) ∧
      markerSubtree E2 = mappedFiles
        (fun s => if s = "./a.js" then some "NEWCONTENT" else none)
        [("content/a.js", "./a.js")] := by
  have W : WellStaged "content/a.js (./a.js)"
      (fun s => if s = "./a.js" then some "NEWCONTENT" else none)
      ⟨[(BUILD_DIRECTORY ++ ["firefox", "omni.ja"],
         FileData.zip [(["chrome", "juggler", "old.js"], "OLD")])]⟩
      (BUILD_DIRECTORY ++ ["firefox", "omni.ja"])
      [(["chrome", "juggler", "old.js"], "OLD")]
      [("content/a.js", "./a.js")] := by
    refine ⟨?_, ⟨[(["chrome", "juggler", "old.js"], "OLD")], by decide, by decide⟩,
      ?_, by decide, Or.inr ⟨by decide, by decide⟩, by decide, by decide,
      by rfl, by decide, by decide, by decide, by decide⟩
    · decide
    · intro q hq hqp
      exfalso
      apply hqp
      have hc : candidates ⟨[(BUILD_DIRECTORY ++ ["firefox", "omni.ja"],
          FileData.zip [(["chrome", "juggler", "old.js"], "OLD")])]⟩ =
          [BUILD_DIRECTORY ++ ["firefox", "omni.ja"]] := by decide
      rw [hc] at hq
      simpa using hq
  exact repackageJuggler_patch_idempotent W (by decide)

end RepackJuggler
